import Mathlib

/-!
Verification of the rescan / header-rewrite engine of filterctld.

This file embeds, as executable Lean definitions, the functions of the
repository that the claims concern:

* the line-based rewrite engine of `rescan.go` (`RescanMessage`,
  `processMessage`, `writeHeader`, `shouldDelete`, `headerKey`, `isHeader`,
  `isBlank`, `getSenderScore` over raw lines, the `X-Spam-Status` wrap loop
  guarded by `THRESHOLD`);
* the map-based revision (`RescanMessage` of the unnamed revision file,
  called `P2` here): its case-insensitive delete-key computation and its
  unwrapped `X-Spam-Status` builder;
* the shared helpers `getSenderScore` (address form), `generateOutputPath`
  and the Go `path` package functions (`Clean`, `Dir`, `Base`, `Join`) they
  use.

Modelling conventions:

* Go `float32` score fields are modelled as integers counting thousandths
  (so Go's `%.3f` rendering becomes exact integer formatting `fmt3`); no
  claim depends on float rounding.
* Go maps are modelled as lists in iteration order; Go does not fix a map
  iteration order, so theorems about order-sensitivity quantify over the
  order.
* Go string primitives (`strings.HasPrefix`, `strings.ToLower`,
  `strings.Split`) are rendered as character-list operations so that all
  definitions evaluate by kernel reduction.
* Filesystem side effects are modelled as an explicit trace of `FsEffect`
  values; `os.Create` / `os.MkdirAll` append to the trace.
* Run-time panics (out-of-range indexing, nil dereference) are modelled by
  an `Option` layer: `none` is a panic.
-/

namespace Filterctld

/-- Go `strings.HasPrefix s pre` (also `String.startsWith`), as a
character-list prefix test. -/
def strHasPrefix (s pre : String) : Bool :=
  pre.toList.isPrefixOf s.toList

/-- Go `strings.ToLower` (ASCII letters; the repository only compares ASCII
header names). -/
def strToLower (s : String) : String :=
  String.mk (s.toList.map Char.toLower)

/-- Effect trace entries for the filesystem calls the engine makes. -/
inductive FsEffect where
  | create (path : String)
  | mkdirAll (path : String)
deriving DecidableEq, Repr

instance {ε α : Type _} [DecidableEq ε] [DecidableEq α] :
    DecidableEq (Except ε α) := fun a b =>
  match a, b with
  | .ok x, .ok y =>
    if h : x = y then .isTrue (by rw [h]) else .isFalse (by simp [h])
  | .error x, .error y =>
    if h : x = y then .isTrue (by rw [h]) else .isFalse (by simp [h])
  | .ok _, .error _ => .isFalse (by simp)
  | .error _, .ok _ => .isFalse (by simp)

/-- Constant `THRESHOLD = 70` from rescan.go (wrap budget of the
`X-Spam-Status` build loop). -/
def THRESHOLD : Nat := 70

/-- Constant `MAX_HEADER_LENGTH = 75` from rescan.go ("RFC says 76; but we
append a ] after breaking X-Spam-Score"). -/
def MAX_HEADER_LENGTH : Nat := 75

/-- Embeds `headerKey` (rescan.go): field 0 of `strings.Split(line, ":")`,
i.e. the prefix of the line before the first colon (the whole line when it
has no colon). -/
def headerKey (line : String) : String :=
  String.mk (line.toList.takeWhile (· ≠ ':'))

/-- Embeds `shouldDelete` (rescan.go): delete when the verdict's
`remove_headers` map contains the key (exact lookup), else when the key has
the literal prefix `X-Spam`. The `map[string]int` is modelled by its key
list. -/
def shouldDelete (key : String) (headersToRemove : List String) : Bool :=
  if headersToRemove.contains key then true
  else strHasPrefix key "X-Spam"

/-- Embeds `isHeader` (rescan.go): nonempty line whose first rune is not
whitespace. -/
def isHeader (line : String) : Bool :=
  match line.toList with
  | [] => false
  | c :: _ => !c.isWhitespace

/-- Embeds `isBlank` (rescan.go): `len(strings.TrimSpace(line)) == 0`,
i.e. every character is whitespace. -/
def isBlank (line : String) : Bool :=
  line.toList.all (·.isWhitespace)

/-- Embeds `writeHeader` (rescan.go): given the buffered (possibly folded)
header lines, return the header key and the lines actually written (none
when `shouldDelete` fires; the buffered lines verbatim otherwise). -/
def writeHeader (lines : List String) (headersToRemove : List String) :
    String × List String :=
  match lines with
  | [] => ("", [])
  | l0 :: _ =>
    let key := headerKey l0
    if shouldDelete key headersToRemove then (key, [])
    else (key, lines)

/-- The block of lines `processMessage` inserts after the first Received
header: the `headersToAdd` map in iteration order, then one
`X-Address-Book` line per book. -/
def addBlock (headersToAdd : List (String × String)) (books : List String) :
    List String :=
  headersToAdd.map (fun kv => kv.1 ++ ": " ++ kv.2)
    ++ books.map (fun b => "X-Address-Book: " ++ b)

/-- Embeds the per-line loop of `processMessage` (rescan.go): state machine
over raw lines with state (inHeaders, received, headerBuf) accumulating the
output lines. Returns the written lines, or the error
"no received header found". -/
def processLines (headersToRemove : List String)
    (headersToAdd : List (String × String)) (books : List String) :
    List String → Bool → Bool → List String → List String →
    Except String (List String)
  | [], _, _, _, out => .ok out
  | line :: rest, inHeaders, received, headerBuf, out =>
    if inHeaders then
      if isHeader line then
        let flushed := writeHeader headerBuf headersToRemove
        let out := out ++ flushed.2
        if strToLower flushed.1 == "received" then
          if !received then
            processLines headersToRemove headersToAdd books rest true true
              [line] (out ++ addBlock headersToAdd books)
          else
            processLines headersToRemove headersToAdd books rest true true
              [line] out
        else
          processLines headersToRemove headersToAdd books rest true received
            [line] out
      else if isBlank line then
        if !received then .error "no received header found"
        else
          let flushed := writeHeader headerBuf headersToRemove
          processLines headersToRemove headersToAdd books rest false received
            headerBuf (out ++ flushed.2 ++ [""])
      else
        processLines headersToRemove headersToAdd books rest true received
          (headerBuf ++ [line]) out
    else
      processLines headersToRemove headersToAdd books rest false received
        headerBuf (out ++ [line])

/-- Embeds `processMessage` (rescan.go): `os.Create(filename)` happens first
and unconditionally (recorded in the effect trace), then the line loop runs
with empty initial buffer and flags. -/
def processMessage (filename : String) (lines : List String)
    (headersToRemove : List String) (headersToAdd : List (String × String))
    (books : List String) :
    Except String (List String) × List FsEffect :=
  (processLines headersToRemove headersToAdd books lines true false [] [],
   [FsEffect.create filename])

/-! Symbols, `%.3f` formatting and the two `X-Spam-Status` builders. -/

/-- Lexicographic comparison of character lists; model of Go's `<` on
strings (byte-wise lexicographic; identical for ASCII data). -/
def charListLt : List Char → List Char → Bool
  | [], [] => false
  | [], _ :: _ => true
  | _ :: _, [] => false
  | a :: as, b :: bs => if a < b then true else if b < a then false else charListLt as bs

/-- Go string comparison `a < b`. -/
def strLt (a b : String) : Bool :=
  charListLt a.toList b.toList

theorem charListLt_irrefl (x : List Char) : charListLt x x = false := by
  induction x with
  | nil => rfl
  | cons a as ih => simp [charListLt, lt_irrefl, ih]

theorem charListLt_trans {x y z : List Char} (hxy : charListLt x y = true)
    (hyz : charListLt y z = true) : charListLt x z = true := by
  induction x generalizing y z with
  | nil =>
    cases y with
    | nil => simp [charListLt] at hxy
    | cons b bs =>
      cases z with
      | nil => simp [charListLt] at hyz
      | cons c cs => rfl
  | cons a as ih =>
    cases y with
    | nil => simp [charListLt] at hxy
    | cons b bs =>
      cases z with
      | nil => simp [charListLt] at hyz
      | cons c cs =>
        simp only [charListLt] at hxy hyz ⊢
        rcases lt_trichotomy a b with hab | hab | hab
        · rcases lt_trichotomy b c with hbc | hbc | hbc
          · simp [lt_trans hab hbc]
          · subst hbc; simp [hab]
          · simp [lt_asymm hbc, hbc] at hyz
        · subst hab
          rcases lt_trichotomy a c with hbc | hbc | hbc
          · simp [hbc]
          · subst hbc
            simp only [lt_irrefl, if_false] at hxy hyz ⊢
            exact ih hxy hyz
          · simp [lt_asymm hbc, hbc] at hyz
        · simp [lt_asymm hab, hab] at hxy

theorem charListLt_connex (x y : List Char) :
    charListLt x y = true ∨ charListLt y x = true ∨ x = y := by
  induction x generalizing y with
  | nil =>
    cases y with
    | nil => right; right; rfl
    | cons b bs => left; rfl
  | cons a as ih =>
    cases y with
    | nil => right; left; rfl
    | cons b bs =>
      rcases lt_trichotomy a b with h | h | h
      · left; simp [charListLt, h]
      · subst h
        rcases ih bs with h' | h' | h'
        · left; simp [charListLt, lt_irrefl, h']
        · right; left; simp [charListLt, lt_irrefl, h']
        · right; right; rw [h']
      · right; left; simp [charListLt, h]

/-- Embeds the `Symbol` struct of the decoded RSPAMD response. Go `float32`
fields (`metric_score`, `score`) are modelled as integer thousandths. -/
structure Symbol where
  Description : String
  MetricScore : Int
  Name : String
  Options : List String
  Score : Int
deriving DecidableEq, Repr

/-- Three-digit zero padding of the fractional part for `fmt3`. -/
def pad3 (k : Nat) : String :=
  if k < 10 then "00" ++ toString k
  else if k < 100 then "0" ++ toString k
  else toString k

/-- Go's `%.3f` on a value that is an exact count of thousandths. -/
def fmt3 (n : Int) : String :=
  (if n < 0 then "-" else "") ++ toString (n.natAbs / 1000) ++ "." ++ pad3 (n.natAbs % 1000)

/-- The comparison relation used by `sort.Slice(symbols, ...)` in both
revisions: ascending by `Name` under Go string `<`. `symLe a b` states that
`b.Name` is not strictly below `a.Name`, i.e. `a.Name ≤ b.Name`. -/
def symLe (a b : Symbol) : Prop :=
  charListLt b.Name.toList a.Name.toList = false

instance : DecidableRel symLe := fun a b => by
  unfold symLe; infer_instance

instance : IsTotal Symbol symLe :=
  ⟨fun a b => by
    unfold symLe
    cases hba : charListLt b.Name.toList a.Name.toList with
    | false => exact Or.inl rfl
    | true =>
      cases hab : charListLt a.Name.toList b.Name.toList with
      | false => exact Or.inr rfl
      | true =>
        have := charListLt_trans hab hba
        rw [charListLt_irrefl] at this
        simp at this⟩

instance : IsTrans Symbol symLe :=
  ⟨fun a b c hab hbc => by
    unfold symLe at *
    cases hca : charListLt c.Name.toList a.Name.toList with
    | false => rfl
    | true =>
      rcases charListLt_connex b.Name.toList c.Name.toList with h' | h' | h'
      · have := charListLt_trans h' hca
        rw [hab] at this
        simp at this
      · rw [hbc] at h'
        simp at h'
      · rw [h'] at hab
        rw [hab] at hca
        simp at hca⟩

/-- Embeds the symbol normalization of both `RescanMessage` revisions:
collect `response.Symbols` (map iteration order is the input list order)
and sort ascending by name via `sort.Slice`; modelled by insertion sort
with the same ordering. -/
def sortSymbols (symbols : List Symbol) : List Symbol :=
  List.insertionSort symLe symbols

/-- The `name=score` token rendered for one symbol
(`fmt.Sprintf("%s=%.3f", symbol.Name, symbol.Score)`). -/
def symSection (sym : Symbol) : String :=
  sym.Name ++ "=" ++ fmt3 sym.Score

/-- Loop state of the rescan.go `X-Spam-Status` build loop: the accumulated
multi-line value, the current line buffer, and the pending delimiter. -/
structure WrapState where
  spamStatus : String
  line : String
  delim : String
deriving DecidableEq, Repr

/-- One iteration of the rescan.go `X-Spam-Status` build loop: flush the
current line into `spamStatus` when adding the section would push the line
past `THRESHOLD`, then append the section with the pending delimiter. -/
def wrapStep (st : WrapState) (sym : Symbol) : WrapState :=
  let sec := symSection sym
  if st.line.length + sec.length > THRESHOLD then
    { spamStatus := st.spamStatus ++ "\n" ++ st.line
      line := "\t" ++ sec
      delim := ", " }
  else
    { spamStatus := st.spamStatus
      line := st.line ++ st.delim ++ sec
      delim := ", " }

/-- Embeds the `X-Spam-Status` synthesis of `RescanMessage` (rescan.go):
start from the pre-existing status value plus `required=`, run the wrap
loop over the sorted symbols, then append `"]"` to the accumulated value.
The final `line` buffer is not appended (the loop exits without a flush
and the source never adds it). -/
def spamStatusRescan (prev : String) (required : Int) (symbols : List Symbol) : String :=
  let sorted := sortSymbols symbols
  let st := sorted.foldl wrapStep
    { spamStatus := prev ++ " required=" ++ fmt3 required
      line := "\ttests["
      delim := "" }
  st.spamStatus ++ "]"

/-- Embeds the `X-Spam-Status` synthesis of the map-based revision
(`RescanMessage` of the P2 revision): single unwrapped value with
`\n    tests[` inline and every sorted symbol appended with `", "`
delimiters. -/
def spamStatusP2 (prev : String) (required : Int) (symbols : List Symbol) : String :=
  let sorted := sortSymbols symbols
  let st := sorted.foldl
    (fun (acc : String × String) sym => (acc.1 ++ acc.2 ++ symSection sym, ", "))
    (prev ++ " required=" ++ fmt3 required ++ "\n    tests[", "")
  st.1 ++ "]"

/-! Reputation resolver: `getSenderScore` in its address and raw-line
forms, the bracket-IP regular expression, and the DNS lookup oracle. -/

/-- Go `strings.Split` of a character list at a one-character separator. -/
def splitChar (sep : Char) : List Char → List (List Char)
  | [] => [[]]
  | c :: cs =>
    match splitChar sep cs with
    | [] => [[]]
    | s :: ss => if c = sep then [] :: s :: ss else (c :: s) :: ss

/-- Go `strings.Split(s, sep)` for a one-character separator. -/
def strSplitOn (s : String) (sep : Char) : List String :=
  (splitChar sep s.toList).map String.mk

/-- A resolved DNS address as `net.LookupIP` returns it: either an IPv4
address (`To4` succeeds) or some other address (`To4` returns nil). -/
inductive IPAddr where
  | v4 (a b c d : Nat)
  | other (repr : String)
deriving DecidableEq, Repr

/-- Go `net.IP.To4`: the four octets, or `none` (nil) for a non-IPv4
address. -/
def IPAddr.to4 : IPAddr → Option (Nat × Nat × Nat × Nat)
  | .v4 a b c d => some (a, b, c, d)
  | .other _ => none

/-- The `for _, ip := range ips { ip4 := ip.To4(); score = int(ip4[3]) }`
loop shared by both `getSenderScore` forms: the score is overwritten by the
last octet of each address in turn, so the last address wins; indexing a
nil `To4` result panics (`none`). -/
def scoreLoop : List IPAddr → Int → Option Int
  | [], score => some score
  | ip :: rest, _ =>
    match ip.to4 with
    | none => none
    | some (_, _, _, d) => scoreLoop rest (Int.ofNat d)

/-- The DNS name `getSenderScore` builds:
`fmt.Sprintf("%s.%s.%s.%s.score.senderscore.com", octets[3], octets[2],
octets[1], octets[0])` after `octets := strings.Split(addr, ".")`.
Out-of-range indexing (fewer than four octets) panics (`none`). -/
def senderScoreLookupName (addr : String) : Option String :=
  let octets := strSplitOn addr '.'
  match octets[3]?, octets[2]?, octets[1]?, octets[0]? with
  | some o3, some o2, some o1, some o0 =>
    some (o3 ++ "." ++ o2 ++ "." ++ o1 ++ "." ++ o0 ++ ".score.senderscore.com")
  | _, _, _, _ => none

/-- Embeds `getSenderScore(addr string)` (rescan.go / P2 revision): build
the reversed-octet lookup name, resolve it through the DNS oracle
`lookupIP`, and run the last-address-wins octet loop. `none` is a runtime
panic; `some (.error e)` is the returned error. -/
def getSenderScore (addr : String)
    (lookupIP : String → Except String (List IPAddr)) :
    Option (Except String Int) :=
  match senderScoreLookupName addr with
  | none => none
  | some lookup =>
    match lookupIP lookup with
    | .error e => some (.error ("DNS query failed: " ++ e))
    | .ok ips => (scoreLoop ips 0).map Except.ok

/-- One octet (`[0-9]+`) of the bracket-IP pattern: the greedy digit run
and the rest of the input, or `none` when no digit is present. -/
def parseOctet (cs : List Char) : Option (List Char × List Char) :=
  let ds := cs.takeWhile Char.isDigit
  if ds.isEmpty then none else some (ds, cs.dropWhile Char.isDigit)

/-- Embeds `addrPattern.FindStringSubmatch`: the regular expression
`^[^[]*\[([0-9]+\.[0-9]+\.[0-9]+\.[0-9]+)\].*` matched against a line.
`[^[]*` can only reach the first `[`, after which the dotted quad and the
closing bracket must follow literally; the capture group is returned. -/
def matchBracketIP (line : String) : Option String :=
  match line.toList.dropWhile (· ≠ '[') with
  | '[' :: r0 =>
    match parseOctet r0 with
    | none => none
    | some (d1, r1) =>
      match r1 with
      | '.' :: r1' =>
        match parseOctet r1' with
        | none => none
        | some (d2, r2) =>
          match r2 with
          | '.' :: r2' =>
            match parseOctet r2' with
            | none => none
            | some (d3, r3) =>
              match r3 with
              | '.' :: r3' =>
                match parseOctet r3' with
                | none => none
                | some (d4, r4) =>
                  match r4 with
                  | ']' :: _ =>
                    some (String.mk (d1 ++ '.' :: d2 ++ '.' :: d3 ++ '.' :: d4))
                  | _ => none
              | _ => none
          | _ => none
      | _ => none
  | _ => none

/-- Embeds `getSenderScore(lines []string)` (rescan.go, raw-line form):
count `Received:`-prefixed lines; more than two is an error; while the
count is exactly two, try the bracket-IP pattern on the current line and on
a match resolve the score exactly as the address form does; exhausting the
lines without a match is an error. -/
def getSenderScoreFromLines (lookupIP : String → Except String (List IPAddr)) :
    List String → Nat → Option (Except String Int)
  | [], _ => some (.error "failed scan for received IP address")
  | line :: rest, received =>
    let received := if strHasPrefix line "Received:" then received + 1 else received
    if strHasPrefix line "Received:" && decide (received > 2) then
      some (.error "IP address not found in second Received line")
    else if received == 2 then
      match matchBracketIP line with
      | some addr => getSenderScore addr lookupIP
      | none => getSenderScoreFromLines lookupIP rest received
    else getSenderScoreFromLines lookupIP rest received

/-! The decoded RSPAMD response and the line-based `RescanMessage`
pipeline. -/

/-- Embeds the `AddHeader` struct (`order`, `value`). -/
structure AddHeader where
  Order : Int
  Value : String
deriving DecidableEq, Repr

/-- Embeds `MilterMap`; the two Go maps are modelled by lists in iteration
order (`AddHeaders` with values, `RemoveHeaders` by key list). -/
structure MilterMap where
  AddHeaders : List (String × AddHeader)
  RemoveHeaders : List String
deriving DecidableEq, Repr

/-- Embeds `RspamdResponse`; `Score` and `Required` (`required_score`) are
float32 values modelled as integer thousandths, `Symbols` is the symbol map
in iteration order. -/
structure RspamdResponse where
  Score : Int
  Required : Int
  Milter : MilterMap
  Urls : List String
  Thresholds : List (String × Int)
  Symbols : List Symbol
deriving DecidableEq, Repr

/-- Go map read `m[key]` on the `AddHeaders` map: the stored value, or the
zero `AddHeader` when the key is absent. -/
def getAddHeader (m : List (String × AddHeader)) (key : String) : AddHeader :=
  match m.find? (fun kv => kv.1 == key) with
  | some kv => kv.2
  | none => { Order := 0, Value := "" }

/-- The external collaborators `RescanMessage` consults, as oracles: the
classification POST, the DNS resolver, the address-book scan and the spam
class lookup. -/
structure RescanOracles where
  post : Except String RspamdResponse
  lookupIP : String → Except String (List IPAddr)
  scanAddress : Except String (List String)
  getClass : Except String String

/-- Embeds `RescanMessage` (rescan.go, line-based revision): classify the
raw message, synthesize the status/score/sender-score/class/spam headers,
and hand everything to `processMessage` writing to `file + ".out"`. The
effect trace records the filesystem writes; every failure before
`processMessage` returns with an empty trace. `none` is a runtime panic
inside the sender-score octet loop. -/
def RescanMessage (file : String) (lines : List String) (orc : RescanOracles) :
    Option (Except String (List String) × List FsEffect) :=
  match orc.post with
  | .error e => some (.error e, [])
  | .ok response =>
    let spamStatus := spamStatusRescan
      (getAddHeader response.Milter.AddHeaders "X-Spam-Status").Value
      response.Required response.Symbols
    let headers0 := [("X-Spam-Score", fmt3 response.Score ++ " / " ++ fmt3 response.Required)]
    match getSenderScoreFromLines orc.lookupIP lines 0 with
    | none => none
    | some (.error e) => some (.error e, [])
    | some (.ok senderScore) =>
      match orc.scanAddress with
      | .error e => some (.error e, [])
      | .ok books =>
        match orc.getClass with
        | .error e => some (.error e, [])
        | .ok cls =>
          let headers := headers0 ++
            [("X-SenderScore", toString senderScore),
             ("X-Spam-Class", cls),
             ("X-Spam", if cls == "spam" then "yes" else "no"),
             ("X-Spam-Status", spamStatus),
             ("Authentication-Results",
               (getAddHeader response.Milter.AddHeaders "Authentication-Results").Value)]
          let outfile := file ++ ".out"
          some (processMessage outfile lines response.Milter.RemoveHeaders headers books)

/-! The Go `path` package (lexical `Clean`, `Dir`, `Base`, `Join`) and
`generateOutputPath`. -/

/-- Go `path.Split`'s directory part: the prefix of the path up to and
including the final slash (empty when there is none). -/
def upToLastSlash (cs : List Char) : List Char :=
  (cs.reverse.dropWhile (· ≠ '/')).reverse

/-- The element processing of Go `path.Clean`: drop empty and `.` segments,
resolve `..` against the output stack (`..` disappears at the root of a
rooted path and accumulates at the front of a relative one), keep everything
else. The accumulator holds the kept segments in reverse. -/
def cleanSegs (rooted : Bool) : List (List Char) → List (List Char) → List (List Char)
  | [], acc => acc.reverse
  | s :: rest, acc =>
    if s = [] ∨ s = ['.'] then cleanSegs rooted rest acc
    else if s = ['.', '.'] then
      match acc with
      | [] => if rooted then cleanSegs rooted rest [] else cleanSegs rooted rest [s]
      | a :: acc' =>
        if a = ['.', '.'] then cleanSegs rooted rest (s :: a :: acc')
        else cleanSegs rooted rest acc'
    else cleanSegs rooted rest (s :: acc)

/-- Join segments with `/` separators. -/
def joinSegs : List (List Char) → List Char
  | [] => []
  | [s] => s
  | s :: rest => s ++ '/' :: joinSegs rest

/-- The character-level core of Go `path.Clean`: split at slashes, process
the segments, reassemble, restoring the leading slash of a rooted path. -/
def pathCleanCore (cs : List Char) : List Char :=
  let rooted := cs.head? == some '/'
  let outSegs := cleanSegs rooted (splitChar '/' cs) []
  if rooted then '/' :: joinSegs outSegs else joinSegs outSegs

/-- Go `path.Clean` (lexical): the cleaned character sequence, with the
empty input and the empty result mapped to `"."`. -/
def pathClean (p : String) : String :=
  if p = "" then "." else
  let out := pathCleanCore p.toList
  if out = [] then "." else String.mk out

/-- Go `path.Dir`: `Clean` of the prefix up to the final slash. -/
def pathDir (p : String) : String :=
  pathClean (String.mk (upToLastSlash p.toList))

/-- Go `path.Base`: strip trailing slashes, then take the suffix after the
final slash; `"."` for the empty path and `"/"` for an all-slash path. -/
def pathBase (p : String) : String :=
  if p = "" then "." else
  let stripped := (p.toList.reverse.dropWhile (· = '/')).reverse
  if stripped = [] then "/"
  else String.mk (stripped.reverse.takeWhile (· ≠ '/')).reverse

/-- Go `path.Join`: drop empty elements, join the rest with slashes, and
`Clean` the result; all-empty input yields the empty string uncleaned. -/
def pathJoin (elems : List String) : String :=
  let nonempty := elems.filter (fun e => e ≠ "")
  if nonempty = [] then ""
  else pathClean (String.mk (joinSegs (nonempty.map String.toList)))

/-- The `dir not cur` error text of `generateOutputPath` (the trailing
`%+v` dump of the MessageFile struct is not modelled). -/
def dirNotCurMsg (filePath fileName parent dir : String) : String :=
  "dir not cur: path=" ++ filePath ++ " filename=" ++ fileName
    ++ " parent=" ++ parent ++ " dir=" ++ dir ++ "\n"

/-- Embeds `generateOutputPath` (rescan.go / P2 revision): reject a message
whose immediate parent directory is not `cur`; otherwise the output path is
`Join(grandparent, "rescan", filename)` and the output directory is created
(`os.MkdirAll`, recorded as an effect). The input file is never touched. -/
def generateOutputPath (pathname : String) : Except String String × List FsEffect :=
  let filePath := pathDir pathname
  let fileName := pathBase pathname
  let parent := pathDir filePath
  let dir := pathBase filePath
  if dir ≠ "cur" then
    (.error (dirNotCurMsg filePath fileName parent dir), [])
  else
    let outPath := pathJoin [parent, "rescan", fileName]
    let outDir := pathDir outPath
    (.ok outPath, [FsEffect.mkdirAll outDir])

/-- Embeds the delete-key computation of the P2 `RescanMessage`: the nested
loop collecting message header keys that case-insensitively equal a verdict
`remove_headers` key, then the pass adding every key with lowered prefix
`x-spam` or `x-rspam`. The Go maps are modelled by key lists in iteration
order. -/
def deleteKeysP2 (removeHeaders headerKeys : List String) : List String :=
  let dk := removeHeaders.foldl
    (fun acc removeKey =>
      headerKeys.foldl
        (fun acc2 hk =>
          if strToLower removeKey == strToLower hk then acc2 ++ [hk] else acc2)
        acc)
    []
  headerKeys.foldl
    (fun acc hk =>
      let acc := if strHasPrefix (strToLower hk) "x-spam" then acc ++ [hk] else acc
      if strHasPrefix (strToLower hk) "x-rspam" then acc ++ [hk] else acc)
    dk

/-! Stepping lemmas for the `processMessage` line loop. -/

/-- The contribution of one single-line header to the output: nothing when
the deletion policy fires, the line itself otherwise. -/
def keepHeader (headersToRemove : List String) (h : String) : List String :=
  (writeHeader [h] headersToRemove).2

theorem processLines_step_header_other {rm : List String}
    {adds : List (String × String)} {bks : List String} {line : String}
    {rest : List String} {rec : Bool} {buf out : List String}
    (hi : isHeader line = true)
    (hk : strToLower (writeHeader buf rm).1 ≠ "received") :
    processLines rm adds bks (line :: rest) true rec buf out
      = processLines rm adds bks rest true rec [line]
          (out ++ (writeHeader buf rm).2) := by
  simp [processLines, hi, hk]

theorem processLines_step_header_received_first {rm : List String}
    {adds : List (String × String)} {bks : List String} {line : String}
    {rest : List String} {buf out : List String}
    (hi : isHeader line = true)
    (hk : strToLower (writeHeader buf rm).1 = "received") :
    processLines rm adds bks (line :: rest) true false buf out
      = processLines rm adds bks rest true true [line]
          (out ++ (writeHeader buf rm).2 ++ addBlock adds bks) := by
  simp [processLines, hi, hk]

theorem processLines_step_header_received_again {rm : List String}
    {adds : List (String × String)} {bks : List String} {line : String}
    {rest : List String} {buf out : List String}
    (hi : isHeader line = true)
    (hk : strToLower (writeHeader buf rm).1 = "received") :
    processLines rm adds bks (line :: rest) true true buf out
      = processLines rm adds bks rest true true [line]
          (out ++ (writeHeader buf rm).2) := by
  simp [processLines, hi, hk]

theorem processLines_step_blank_norecv {rm : List String}
    {adds : List (String × String)} {bks : List String} {line : String}
    {rest : List String} {buf out : List String}
    (hi : isHeader line = false) (hb : isBlank line = true) :
    processLines rm adds bks (line :: rest) true false buf out
      = .error "no received header found" := by
  simp [processLines, hi, hb]

theorem processLines_step_blank_recv {rm : List String}
    {adds : List (String × String)} {bks : List String} {line : String}
    {rest : List String} {buf out : List String}
    (hi : isHeader line = false) (hb : isBlank line = true) :
    processLines rm adds bks (line :: rest) true true buf out
      = processLines rm adds bks rest false true buf
          (out ++ (writeHeader buf rm).2 ++ [""]) := by
  simp [processLines, hi, hb]

theorem processLines_step_fold {rm : List String}
    {adds : List (String × String)} {bks : List String} {line : String}
    {rest : List String} {rec : Bool} {buf out : List String}
    (hi : isHeader line = false) (hb : isBlank line = false) :
    processLines rm adds bks (line :: rest) true rec buf out
      = processLines rm adds bks rest true rec (buf ++ [line]) out := by
  simp [processLines, hi, hb]

theorem processLines_step_body {rm : List String}
    {adds : List (String × String)} {bks : List String} {line : String}
    {rest : List String} {rec : Bool} {buf out : List String} :
    processLines rm adds bks (line :: rest) false rec buf out
      = processLines rm adds bks rest false rec buf (out ++ [line]) := by
  simp [processLines]

theorem writeHeader_single (rm : List String) (h : String) :
    writeHeader [h] rm = (headerKey h, keepHeader rm h) := by
  unfold keepHeader
  by_cases hd : shouldDelete (headerKey h) rm
  · simp [writeHeader, hd]
  · simp [writeHeader, hd]

/-- Running the loop over a run of simple (single-line, non-Received)
headers from a one-line buffer flushes all but the last of them. -/
theorem processLines_run_simple {rm : List String}
    {adds : List (String × String)} {bks : List String} :
    ∀ (hs : List String) (p : String) (rest : List String) (rec : Bool)
      (out : List String),
    (∀ h ∈ hs, isHeader h = true ∧ strToLower (headerKey h) ≠ "received") →
    strToLower (headerKey p) ≠ "received" →
    processLines rm adds bks (hs ++ rest) true rec [p] out
      = processLines rm adds bks rest true rec [hs.getLastD p]
          (out ++ ((p :: hs).dropLast).flatMap (keepHeader rm)) := by
  intro hs
  induction hs with
  | nil => intro p rest rec out _ _; simp
  | cons h t ih =>
    intro p rest rec out hall hp
    have hh := hall h (List.mem_cons_self h t)
    rw [List.cons_append,
      processLines_step_header_other hh.1 (by rw [writeHeader_single]; exact hp),
      writeHeader_single,
      ih h rest rec _ (fun x hx => hall x (List.mem_cons_of_mem h hx)) hh.2]
    have e1 : (h :: t).getLastD p = t.getLastD h := by
      simp only [List.getLastD_cons]
    have e2 : ((p :: h :: t).dropLast).flatMap (keepHeader rm)
        = keepHeader rm p ++ ((h :: t).dropLast).flatMap (keepHeader rm) := by
      rw [show (p :: h :: t).dropLast = p :: (h :: t).dropLast from rfl,
        List.flatMap_cons]
    rw [e1, e2, ← List.append_assoc]

/-- Same run lemma once the Received header has been seen: the key of each
flushed header no longer matters. -/
theorem processLines_run_after_received {rm : List String}
    {adds : List (String × String)} {bks : List String} :
    ∀ (hs : List String) (p : String) (rest : List String) (out : List String),
    (∀ h ∈ hs, isHeader h = true) →
    processLines rm adds bks (hs ++ rest) true true [p] out
      = processLines rm adds bks rest true true [hs.getLastD p]
          (out ++ ((p :: hs).dropLast).flatMap (keepHeader rm)) := by
  intro hs
  induction hs with
  | nil => intro p rest out _; simp
  | cons h t ih =>
    intro p rest out hall
    have hh := hall h (List.mem_cons_self h t)
    have hstep : processLines rm adds bks (h :: (t ++ rest)) true true [p] out
        = processLines rm adds bks (t ++ rest) true true [h]
            (out ++ keepHeader rm p) := by
      by_cases hk : strToLower (headerKey p) = "received"
      · rw [processLines_step_header_received_again hh
          (by rw [writeHeader_single]; exact hk), writeHeader_single]
      · rw [processLines_step_header_other hh
          (by rw [writeHeader_single]; exact hk), writeHeader_single]
    rw [List.cons_append, hstep,
      ih h rest _ (fun x hx => hall x (List.mem_cons_of_mem h hx))]
    have e1 : (h :: t).getLastD p = t.getLastD h := by
      simp only [List.getLastD_cons]
    have e2 : ((p :: h :: t).dropLast).flatMap (keepHeader rm)
        = keepHeader rm p ++ ((h :: t).dropLast).flatMap (keepHeader rm) := by
      rw [show (p :: h :: t).dropLast = p :: (h :: t).dropLast from rfl,
        List.flatMap_cons]
    rw [e1, e2, ← List.append_assoc]

/-- After the blank line every remaining line is copied through. -/
theorem processLines_run_body {rm : List String}
    {adds : List (String × String)} {bks : List String} :
    ∀ (body : List String) (rec : Bool) (buf out : List String),
    processLines rm adds bks body false rec buf out = .ok (out ++ body) := by
  intro body
  induction body with
  | nil => intro rec buf out; simp [processLines]
  | cons line rest ih =>
    intro rec buf out
    rw [processLines_step_body, ih, List.append_assoc]
    rfl

/-- The flushed contributions of a nonempty header run recombine into the
full run's contribution. -/
theorem dropLast_bind_keep (rm : List String) :
    ∀ (l : List String) (q : String),
    ((q :: l).dropLast).flatMap (keepHeader rm) ++ keepHeader rm (l.getLastD q)
      = (q :: l).flatMap (keepHeader rm) := by
  intro l
  induction l with
  | nil => intro q; simp
  | cons h t ih =>
    intro q
    rw [show (q :: h :: t).dropLast = q :: (h :: t).dropLast from rfl,
      List.flatMap_cons, List.flatMap_cons, List.getLastD_cons, List.append_assoc,
      ih h]

theorem getLastD_mem_cons' : ∀ (l : List α) (a : α), l.getLastD a ∈ a :: l := by
  intro l
  induction l with
  | nil => intro a; simp
  | cons h t ih =>
    intro a
    rw [List.getLastD_cons]
    exact List.mem_cons_of_mem a (ih h)

theorem writeHeader_nil (rm : List String) : writeHeader [] rm = ("", []) := rfl

/-- Common tail of the insertion proof: from the state just after the block
was inserted (buffer holds the line that triggered the flush of the
Received header), the rest of the header block, the blank line and the body
are emitted in order. -/
theorem processLines_finish {rm : List String}
    {adds : List (String × String)} {bks : List String}
    (b : String) (hs2 : List String) (blank : String) (body : List String)
    (out : List String)
    (h2 : ∀ h ∈ hs2, isHeader h = true)
    (hbl1 : isHeader blank = false) (hbl2 : isBlank blank = true) :
    processLines rm adds bks (hs2 ++ blank :: body) true true [b] out
      = .ok (out ++ (b :: hs2).flatMap (keepHeader rm) ++ [""] ++ body) := by
  rw [processLines_run_after_received hs2 b (blank :: body) out h2,
    processLines_step_blank_recv hbl1 hbl2, writeHeader_single,
    processLines_run_body]
  rw [show (keepHeader rm (hs2.getLastD b)) = [] ++ keepHeader rm (hs2.getLastD b) from rfl]
  simp only [← List.append_assoc, List.append_nil]
  rw [List.append_assoc _ _ (keepHeader rm (hs2.getLastD b)),
    dropLast_bind_keep]

/-- C5 (amended): in `processMessage`, the synthesized/verdict header block
is emitted exactly once, immediately after the first Received header,
provided that Received header is followed by at least one further header
line before the blank line ending the header block; and a message whose
header block contains no Received header fails with the hard error
`no received header found`. (The unamended claim fails when the only
Received header is the last header of the block: the loop only recognizes a
Received header when a following header line flushes it, so the
end-of-header check fires first; see the counterexample.) -/
theorem rescan_insertion_block_spec
    (rm : List String) (adds : List (String × String)) (bks : List String) :
    (∀ (hs1 : List String) (recv b : String) (hs2 : List String)
       (blank : String) (body : List String),
      (∀ h ∈ hs1, isHeader h = true ∧ strToLower (headerKey h) ≠ "received") →
      isHeader recv = true → strToLower (headerKey recv) = "received" →
      isHeader b = true → (∀ h ∈ hs2, isHeader h = true) →
      isHeader blank = false → isBlank blank = true →
      processLines rm adds bks (hs1 ++ recv :: b :: (hs2 ++ blank :: body))
          true false [] []
        = .ok (hs1.flatMap (keepHeader rm) ++ keepHeader rm recv
            ++ addBlock adds bks ++ (b :: hs2).flatMap (keepHeader rm)
            ++ [""] ++ body))
    ∧
    (∀ (hs : List String) (blank : String) (body : List String),
      (∀ h ∈ hs, isHeader h = true ∧ strToLower (headerKey h) ≠ "received") →
      isHeader blank = false → isBlank blank = true →
      processLines rm adds bks (hs ++ blank :: body) true false [] []
        = .error "no received header found") := by
  have hnil : strToLower (writeHeader ([] : List String) rm).1 ≠ "received" := by
    rw [writeHeader_nil]; decide
  constructor
  · intro hs1 recv b hs2 blank body h1 hr hrk hb h2 hbl1 hbl2
    cases hs1 with
    | nil =>
      rw [List.nil_append,
        processLines_step_header_other hr hnil,
        writeHeader_nil,
        processLines_step_header_received_first hb
          (by rw [writeHeader_single]; exact hrk),
        writeHeader_single,
        processLines_finish b hs2 blank body _ h2 hbl1 hbl2]
      simp
    | cons a t =>
      have ha := h1 a (List.mem_cons_self a t)
      have hlast : strToLower (writeHeader [t.getLastD a] rm).1 ≠ "received" := by
        rw [writeHeader_single]
        exact (h1 _ (getLastD_mem_cons' t a)).2
      rw [List.cons_append,
        processLines_step_header_other ha.1 hnil,
        writeHeader_nil,
        processLines_run_simple t a _ false _
          (fun x hx => h1 x (List.mem_cons_of_mem a hx)) ha.2,
        processLines_step_header_other hr hlast,
        writeHeader_single,
        processLines_step_header_received_first hb
          (by rw [writeHeader_single]; exact hrk),
        writeHeader_single,
        processLines_finish b hs2 blank body _ h2 hbl1 hbl2]
      dsimp only
      simp only [List.nil_append]
      rw [dropLast_bind_keep rm t a]
  · intro hs blank body h1 hbl1 hbl2
    cases hs with
    | nil =>
      rw [List.nil_append, processLines_step_blank_norecv hbl1 hbl2]
    | cons a t =>
      have ha := h1 a (List.mem_cons_self a t)
      rw [List.cons_append,
        processLines_step_header_other ha.1 hnil,
        writeHeader_nil,
        processLines_run_simple t a _ false _
          (fun x hx => h1 x (List.mem_cons_of_mem a hx)) ha.2,
        processLines_step_blank_norecv hbl1 hbl2]

/-- C5 counterexample: this message contains a relay-trace (Received)
header — its only header — yet `processMessage` fails with the
no-received-header error instead of emitting the insertion block after it,
because the Received header is never flushed by a following header line. -/
theorem rescan_received_last_header_counterexample :
    strToLower (headerKey "Received: from a [1.2.3.4]") = "received"
    ∧ processMessage "out" ["Received: from a [1.2.3.4]", "", "body"]
        [] [("X-Foo", "bar")] []
      = (.error "no received header found", [FsEffect.create "out"]) := by
  constructor
  · decide
  · decide

/-- C5 witness: the amended theorem applied at a concrete message. -/
theorem rescan_insertion_block_spec_witness :
    processLines ["X-Old"] [("X-Foo", "bar")] ["friends"]
      (["From: a@b"] ++ "Received: from a [1.2.3.4]" :: "To: c@d"
        :: (([] : List String) ++ "" :: ["hello"])) true false [] []
      = .ok (["From: a@b"].flatMap (keepHeader ["X-Old"])
          ++ keepHeader ["X-Old"] "Received: from a [1.2.3.4]"
          ++ addBlock [("X-Foo", "bar")] ["friends"]
          ++ ("To: c@d" :: ([] : List String)).flatMap (keepHeader ["X-Old"])
          ++ [""] ++ ["hello"]) :=
  (rescan_insertion_block_spec ["X-Old"] [("X-Foo", "bar")] ["friends"]).1
    ["From: a@b"] "Received: from a [1.2.3.4]" "To: c@d" [] "" ["hello"]
    (by decide) (by decide) (by decide) (by decide) (by decide)
    (by decide) (by decide)

/-- C1: the deletion policy does not make rescanning idempotent. The prefix
test of `shouldDelete` only catches literal `X-Spam...` names, so of the
headers a rescan synthesizes it misses `X-SenderScore`, `X-Address-Book`
(and `Authentication-Results`): with an empty verdict remove-set, rescanning
the output of a rescan emits two `X-SenderScore` and two `X-Address-Book`
headers. The adds list below is the synthesized header set of
`RescanMessage` in its assembly order. -/
theorem rescan_second_pass_duplicates_senderscore :
    shouldDelete "X-SenderScore" [] = false
    ∧ shouldDelete "X-Address-Book" [] = false
    ∧ processLines []
        [("X-Spam-Score", "8.200 / 6.000"), ("X-SenderScore", "12"),
         ("X-Spam-Class", "ham"), ("X-Spam", "no"), ("X-Spam-Status", "sts"),
         ("Authentication-Results", "example.com; none")]
        ["friends"]
        ["Received: from mail.example.com [203.0.113.9]", "From: a@b", "", "body"]
        true false [] []
      = .ok ["Received: from mail.example.com [203.0.113.9]",
             "X-Spam-Score: 8.200 / 6.000", "X-SenderScore: 12",
             "X-Spam-Class: ham", "X-Spam: no", "X-Spam-Status: sts",
             "Authentication-Results: example.com; none",
             "X-Address-Book: friends", "From: a@b", "", "body"]
    ∧ processLines []
        [("X-Spam-Score", "8.200 / 6.000"), ("X-SenderScore", "12"),
         ("X-Spam-Class", "ham"), ("X-Spam", "no"), ("X-Spam-Status", "sts"),
         ("Authentication-Results", "example.com; none")]
        ["friends"]
        ["Received: from mail.example.com [203.0.113.9]",
         "X-Spam-Score: 8.200 / 6.000", "X-SenderScore: 12",
         "X-Spam-Class: ham", "X-Spam: no", "X-Spam-Status: sts",
         "Authentication-Results: example.com; none",
         "X-Address-Book: friends", "From: a@b", "", "body"]
        true false [] []
      = .ok ["Received: from mail.example.com [203.0.113.9]",
             "X-Spam-Score: 8.200 / 6.000", "X-SenderScore: 12",
             "X-Spam-Class: ham", "X-Spam: no", "X-Spam-Status: sts",
             "Authentication-Results: example.com; none",
             "X-Address-Book: friends", "X-SenderScore: 12",
             "Authentication-Results: example.com; none",
             "X-Address-Book: friends", "From: a@b", "", "body"]
    ∧ (["Received: from mail.example.com [203.0.113.9]",
        "X-Spam-Score: 8.200 / 6.000", "X-SenderScore: 12",
        "X-Spam-Class: ham", "X-Spam: no", "X-Spam-Status: sts",
        "Authentication-Results: example.com; none",
        "X-Address-Book: friends", "X-SenderScore: 12",
        "Authentication-Results: example.com; none",
        "X-Address-Book: friends", "From: a@b", "", "body"].countP
          (fun l => strHasPrefix l "X-SenderScore:")) = 2 := by
  refine ⟨by decide, by decide, by decide, by decide, by decide⟩

/-- Relation between two rewrite results: identical errors, or outputs that
are permutations of each other. -/
def ExceptPerm : Except String (List String) → Except String (List String) → Prop
  | .ok o1, .ok o2 => o1.Perm o2
  | .error e1, .error e2 => e1 = e2
  | _, _ => False

theorem bool_eq_false_of_ne_true {b : Bool} (h : ¬b = true) : b = false := by
  cases b
  · rfl
  · exact absurd rfl h

/-- Two runs of the line loop over permuted add-lists take the same control
path and produce outputs that differ only by the order of the inserted
block. -/
theorem processLines_perm_adds {rm bks : List String}
    {adds1 adds2 : List (String × String)} (hp : adds1.Perm adds2) :
    ∀ (lines : List String) (inH rec : Bool) (buf out1 out2 : List String),
    out1.Perm out2 →
    ExceptPerm (processLines rm adds1 bks lines inH rec buf out1)
      (processLines rm adds2 bks lines inH rec buf out2) := by
  intro lines
  induction lines with
  | nil => intro inH rec buf out1 out2 ho; exact ho
  | cons line rest ih =>
    intro inH rec buf out1 out2 ho
    cases inH with
    | false =>
      rw [processLines_step_body, processLines_step_body]
      exact ih _ _ _ _ _ (ho.append_right [line])
    | true =>
      by_cases hih : isHeader line = true
      · by_cases hk : strToLower (writeHeader buf rm).1 = "received"
        · cases rec with
          | false =>
            rw [processLines_step_header_received_first hih hk,
              processLines_step_header_received_first hih hk]
            exact ih _ _ _ _ _
              ((ho.append_right _).append ((hp.map _).append_right _))
          | true =>
            rw [processLines_step_header_received_again hih hk,
              processLines_step_header_received_again hih hk]
            exact ih _ _ _ _ _ (ho.append_right _)
        · rw [processLines_step_header_other hih hk,
            processLines_step_header_other hih hk]
          exact ih _ _ _ _ _ (ho.append_right _)
      · have hih0 := bool_eq_false_of_ne_true hih
        by_cases hb : isBlank line = true
        · cases rec with
          | false =>
            rw [processLines_step_blank_norecv hih0 hb,
              processLines_step_blank_norecv hih0 hb]
            exact rfl
          | true =>
            rw [processLines_step_blank_recv hih0 hb,
              processLines_step_blank_recv hih0 hb]
            exact ih _ _ _ _ _ ((ho.append_right _).append_right [""])
        · have hb0 := bool_eq_false_of_ne_true hb
          rw [processLines_step_fold hih0 hb0, processLines_step_fold hih0 hb0]
          exact ih _ _ _ _ _ ho

/-- C4 (amended): the rewrite is a deterministic function of the message,
the verdict, the auxiliary lookups and the add-map iteration order; the
symbol list inside the status header is normalized by sorting, but the
inserted header block follows Go map iteration order, which is not fixed
between runs, so two runs agree only up to a permutation of that block:
permuted add-lists yield identical effect traces and identical
errors/outputs up to permutation (byte-identical output is not guaranteed;
see the counterexample). -/
theorem processMessage_deterministic_up_to_iteration_order
    (f : String) (lines rm bks : List String)
    (adds1 adds2 : List (String × String)) (hp : adds1.Perm adds2) :
    (processMessage f lines rm adds1 bks).2 = (processMessage f lines rm adds2 bks).2
    ∧ ExceptPerm (processMessage f lines rm adds1 bks).1
        (processMessage f lines rm adds2 bks).1 :=
  ⟨rfl, processLines_perm_adds hp lines true false [] [] [] (List.Perm.refl [])⟩

/-- C4 counterexample: the same add map presented in its two possible
iteration orders produces byte-different outputs for the same message, so
two runs of the rewrite are not guaranteed byte-identical. -/
theorem processMessage_iteration_order_counterexample :
    [("X-A", "1"), ("X-B", "2")].Perm [("X-B", "2"), ("X-A", "1")]
    ∧ (processMessage "o" ["Received: a [1.2.3.4]", "From: x@y", "", "b"] []
        [("X-A", "1"), ("X-B", "2")] []).1
      = .ok ["Received: a [1.2.3.4]", "X-A: 1", "X-B: 2", "From: x@y", "", "b"]
    ∧ (processMessage "o" ["Received: a [1.2.3.4]", "From: x@y", "", "b"] []
        [("X-B", "2"), ("X-A", "1")] []).1
      = .ok ["Received: a [1.2.3.4]", "X-B: 2", "X-A: 1", "From: x@y", "", "b"]
    ∧ (Except.ok ["Received: a [1.2.3.4]", "X-A: 1", "X-B: 2", "From: x@y", "", "b"]
        : Except String (List String))
      ≠ .ok ["Received: a [1.2.3.4]", "X-B: 2", "X-A: 1", "From: x@y", "", "b"] := by
  refine ⟨by decide, by decide, by decide, by decide⟩

/-- C4 witness: the amended determinism theorem at a concrete input. -/
theorem processMessage_deterministic_up_to_iteration_order_witness :
    [("X-A", "1"), ("X-B", "2")].Perm [("X-B", "2"), ("X-A", "1")]
    ∧ ExceptPerm
        (processMessage "o" ["Received: a [1.2.3.4]", "", "b"] []
          [("X-A", "1"), ("X-B", "2")] []).1
        (processMessage "o" ["Received: a [1.2.3.4]", "", "b"] []
          [("X-B", "2"), ("X-A", "1")] []).1 :=
  ⟨by decide,
   (processMessage_deterministic_up_to_iteration_order "o"
      ["Received: a [1.2.3.4]", "", "b"] [] []
      [("X-A", "1"), ("X-B", "2")] [("X-B", "2"), ("X-A", "1")]
      (by decide)).2⟩

/-! Membership lemmas for the P2 delete-key computation. -/

theorem mem_matchFold_mono (rk : String) :
    ∀ (hs acc : List String) (x : String), x ∈ acc →
    x ∈ hs.foldl
      (fun acc2 hk => if strToLower rk == strToLower hk then acc2 ++ [hk] else acc2)
      acc := by
  intro hs
  induction hs with
  | nil => intro acc x hx; exact hx
  | cons h t ih =>
    intro acc x hx
    rw [List.foldl_cons]
    apply ih
    split
    · exact List.mem_append_left _ hx
    · exact hx

theorem mem_matchFold_attain (rk : String) :
    ∀ (hs acc : List String) (hk : String), hk ∈ hs →
    strToLower rk = strToLower hk →
    hk ∈ hs.foldl
      (fun acc2 hk => if strToLower rk == strToLower hk then acc2 ++ [hk] else acc2)
      acc := by
  intro hs
  induction hs with
  | nil => intro acc hk hmem; exact absurd hmem (List.not_mem_nil hk)
  | cons h t ih =>
    intro acc hk hmem heq
    rw [List.foldl_cons]
    rcases List.mem_cons.mp hmem with rfl | hm
    · apply mem_matchFold_mono
      rw [if_pos (beq_iff_eq.mpr heq)]
      exact List.mem_append_right _ (List.mem_singleton.mpr rfl)
    · exact ih _ hk hm heq

theorem mem_removeFold_mono (hs : List String) :
    ∀ (rs acc : List String) (x : String), x ∈ acc →
    x ∈ rs.foldl
      (fun acc removeKey => hs.foldl
        (fun acc2 hk => if strToLower removeKey == strToLower hk then acc2 ++ [hk] else acc2)
        acc)
      acc := by
  intro rs
  induction rs with
  | nil => intro acc x hx; exact hx
  | cons r t ih =>
    intro acc x hx
    rw [List.foldl_cons]
    exact ih _ x (mem_matchFold_mono r hs acc x hx)

theorem mem_removeFold_attain (hs : List String) :
    ∀ (rs acc : List String) (rk hk : String), rk ∈ rs → hk ∈ hs →
    strToLower rk = strToLower hk →
    hk ∈ rs.foldl
      (fun acc removeKey => hs.foldl
        (fun acc2 hk => if strToLower removeKey == strToLower hk then acc2 ++ [hk] else acc2)
        acc)
      acc := by
  intro rs
  induction rs with
  | nil => intro acc rk hk hmem; exact absurd hmem (List.not_mem_nil rk)
  | cons r t ih =>
    intro acc rk hk hrmem hhmem heq
    rw [List.foldl_cons]
    rcases List.mem_cons.mp hrmem with rfl | hm
    · exact mem_removeFold_mono hs t _ hk (mem_matchFold_attain rk hs acc hk hhmem heq)
    · exact ih _ rk hk hm hhmem heq

theorem mem_prefixFold_mono :
    ∀ (hs acc : List String) (x : String), x ∈ acc →
    x ∈ hs.foldl
      (fun acc hk =>
        let acc := if strHasPrefix (strToLower hk) "x-spam" then acc ++ [hk] else acc
        if strHasPrefix (strToLower hk) "x-rspam" then acc ++ [hk] else acc)
      acc := by
  intro hs
  induction hs with
  | nil => intro acc x hx; exact hx
  | cons h t ih =>
    intro acc x hx
    rw [List.foldl_cons]
    apply ih
    dsimp only
    split
    · split
      · exact List.mem_append_left _ (List.mem_append_left _ hx)
      · exact List.mem_append_left _ hx
    · split
      · exact List.mem_append_left _ hx
      · exact hx

theorem mem_prefixFold_attain_spam :
    ∀ (hs acc : List String) (hk : String), hk ∈ hs →
    strHasPrefix (strToLower hk) "x-spam" = true →
    hk ∈ hs.foldl
      (fun acc hk =>
        let acc := if strHasPrefix (strToLower hk) "x-spam" then acc ++ [hk] else acc
        if strHasPrefix (strToLower hk) "x-rspam" then acc ++ [hk] else acc)
      acc := by
  intro hs
  induction hs with
  | nil => intro acc hk hmem; exact absurd hmem (List.not_mem_nil hk)
  | cons h t ih =>
    intro acc hk hmem hpre
    rw [List.foldl_cons]
    rcases List.mem_cons.mp hmem with rfl | hm
    · apply mem_prefixFold_mono
      dsimp only
      rw [if_pos hpre]
      split
      · exact List.mem_append_left _
          (List.mem_append_right _ (List.mem_singleton.mpr rfl))
      · exact List.mem_append_right _ (List.mem_singleton.mpr rfl)
    · exact ih _ hk hm hpre

/-- C3 (amended): header deletion is case-insensitive in the map-based P2
revision — a verdict remove entry deletes every header whose name equals it
ignoring case, and the reserved-prefix test is applied to the lowered name —
while in the line-based revision `shouldDelete` is case-sensitive in both
the remove-set lookup and the `X-Spam` prefix test; the spec's concrete

only because the header's literal `X-Spam` prefix fires, and a remove entry
differing in case deletes nothing (see the counterexample). -/
theorem header_deletion_case_semantics :
    (∀ (rs hs : List String) (rk hk : String),
      rk ∈ rs → hk ∈ hs → strToLower rk = strToLower hk →
      hk ∈ deleteKeysP2 rs hs)
    ∧ (∀ (rs hs : List String) (hk : String),
      hk ∈ hs → strHasPrefix (strToLower hk) "x-spam" = true →
      hk ∈ deleteKeysP2 rs hs)
    ∧ shouldDelete "X-Spam-Status" ["x-spam-status"] = true := by
  refine ⟨?_, ?_, by decide⟩
  · intro rs hs rk hk hr hh heq
    unfold deleteKeysP2
    exact mem_prefixFold_mono hs _ hk (mem_removeFold_attain hs rs [] rk hk hr hh heq)
  · intro rs hs hk hh hpre
    unfold deleteKeysP2
    exact mem_prefixFold_attain_spam hs _ hk hh hpre

/-- C3 counterexample: in the line-based revision, a verdict entry
`x-old-header` does not delete a header literally written `X-Old-Header`,
although the two names are equal ignoring case — deletion there is
case-sensitive. -/
theorem shouldDelete_case_sensitivity_counterexample :
    strToLower "x-old-header" = strToLower "X-Old-Header"
    ∧ shouldDelete "X-Old-Header" ["x-old-header"] = false := by
  exact ⟨by decide, by decide⟩

/-- C3 witness: the amended theorem applied at the spec's example. -/
theorem header_deletion_case_semantics_witness :
    ("x-spam-status" ∈ ["x-spam-status"]
      ∧ "X-Spam-Status" ∈ ["X-Spam-Status"]
      ∧ strToLower "x-spam-status" = strToLower "X-Spam-Status")
    ∧ "X-Spam-Status" ∈ deleteKeysP2 ["x-spam-status"] ["X-Spam-Status"] :=
  ⟨⟨by decide, by decide, by decide⟩,
   header_deletion_case_semantics.1 ["x-spam-status"] ["X-Spam-Status"]
     "x-spam-status" "X-Spam-Status" (by decide) (by decide) (by decide)⟩

/-- With at most one `Received:`-prefixed line, the raw-line sender-score
scan reaches the end of the message and fails. -/
theorem getSenderScoreFromLines_le_one (lk : String → Except String (List IPAddr)) :
    ∀ (lines : List String) (received : Nat),
    received + lines.countP (fun l => strHasPrefix l "Received:") ≤ 1 →
    getSenderScoreFromLines lk lines received
      = some (.error "failed scan for received IP address") := by
  intro lines
  induction lines with
  | nil => intro received _; rfl
  | cons line rest ih =>
    intro received hc
    rw [List.countP_cons] at hc
    cases hpre : strHasPrefix line "Received:" with
    | true =>
      rw [hpre] at hc
      simp at hc
      have hgt : decide (received + 1 > 2) = false := by
        rw [decide_eq_false_iff_not]; omega
      have heq2 : ((received + 1) == 2) = false := by
        rw [beq_eq_false_iff_ne]; omega
      simp only [getSenderScoreFromLines, hpre, if_true, hgt, Bool.and_false,
        Bool.false_eq_true, if_false, heq2]
      exact ih (received + 1) (by omega)
    | false =>
      rw [hpre] at hc
      simp at hc
      have heq2 : (received == 2) = false := by
        rw [beq_eq_false_iff_ne]; omega
      simp only [getSenderScoreFromLines, hpre, Bool.false_and,
        Bool.false_eq_true, if_false, heq2]
      exact ih received (by omega)

/-- C2 (amended): failures before the output-writer step leave no output
file — in particular a message with at most one relay-trace (Received)
line, such as the spec's single-Received error scenario, fails in
`RescanMessage` with the context-extraction error of the sender-score scan
before any filesystem effect, so no output file is created. (The unamended
claim — no output file for *any* failure before the output write
completes — fails: the output writer `processMessage` creates its output
file before validating the header block, so a failure inside it leaves an
empty or partial file; see the counterexample.) -/
theorem rescan_single_received_no_output
    (file : String) (lines : List String) (orc : RescanOracles)
    (resp : RspamdResponse) (hpost : orc.post = .ok resp)
    (hcount : lines.countP (fun l => strHasPrefix l "Received:") ≤ 1) :
    RescanMessage file lines orc
      = some (.error "failed scan for received IP address", []) := by
  unfold RescanMessage
  rw [hpost, getSenderScoreFromLines_le_one orc.lookupIP lines 0 (by omega)]

/-- C2 counterexample: a message whose only headers are non-Received (the
two `Received:` lines sit in the body) passes the sender-score scan, so the
pipeline reaches `processMessage`, which creates the output file and only
then fails with the no-received-header error: processing failed before the
output write completed, yet the output file `f.out` was created. -/
theorem rescan_failure_after_create_counterexample :
    RescanMessage "f"
      ["From: a@b", "", "Received: a", "Received: x [1.2.3.4]"]
      { post := .ok { Score := 0, Required := 0,
                      Milter := { AddHeaders := [], RemoveHeaders := [] },
                      Urls := [], Thresholds := [], Symbols := [] },
        lookupIP := fun _ => .ok [.v4 0 0 0 55],
        scanAddress := .ok [],
        getClass := .ok "ham" }
      = some (.error "no received header found",
              [FsEffect.create "f.out"]) := by
  decide

/-- C2 witness: the amended theorem at the spec's single-Received error
scenario. -/
theorem rescan_single_received_no_output_witness :
    (["Received: one [1.2.3.4]", "From: a@b", "", "x"].countP
        (fun l => strHasPrefix l "Received:") ≤ 1)
    ∧ RescanMessage "f" ["Received: one [1.2.3.4]", "From: a@b", "", "x"]
        { post := .ok { Score := 0, Required := 0,
                        Milter := { AddHeaders := [], RemoveHeaders := [] },
                        Urls := [], Thresholds := [], Symbols := [] },
          lookupIP := fun _ => .error "nx",
          scanAddress := .ok [],
          getClass := .ok "ham" }
      = some (.error "failed scan for received IP address", []) :=
  ⟨by decide,
   rescan_single_received_no_output "f"
     ["Received: one [1.2.3.4]", "From: a@b", "", "x"]
     { post := .ok { Score := 0, Required := 0,
                     Milter := { AddHeaders := [], RemoveHeaders := [] },
                     Urls := [], Thresholds := [], Symbols := [] },
       lookupIP := fun _ => .error "nx",
       scanAddress := .ok [],
       getClass := .ok "ham" }
     { Score := 0, Required := 0,
       Milter := { AddHeaders := [], RemoveHeaders := [] },
       Urls := [], Thresholds := [], Symbols := [] }
     rfl (by decide)⟩

/-- Comma-delimited continuation of a symbol-entry list (the `", " ++ entry`
repetitions a delimiter-threading loop produces). -/
def commaJoinTail : List String → String
  | [] => ""
  | s :: rest => ", " ++ s ++ commaJoinTail rest

/-- Comma-delimited rendering of a symbol-entry list. -/
def commaJoin : List String → String
  | [] => ""
  | s :: rest => s ++ commaJoinTail rest

theorem p2fold_eq_commaJoinTail :
    ∀ (l : List Symbol) (acc : String),
    (l.foldl (fun (a : String × String) sym => (a.1 ++ a.2 ++ symSection sym, ", "))
      (acc, ", ")).1
      = acc ++ commaJoinTail (l.map symSection) := by
  intro l
  induction l with
  | nil => intro acc; exact (String.append_empty acc).symm
  | cons s t ih =>
    intro acc
    rw [List.foldl_cons]
    dsimp only
    rw [ih (acc ++ ", " ++ symSection s), List.map_cons]
    show _ = acc ++ (", " ++ symSection s ++ commaJoinTail (t.map symSection))
    rw [← String.append_assoc, ← String.append_assoc]

theorem spamStatusP2_decomposition (prev : String) (required : Int)
    (symbols : List Symbol) :
    spamStatusP2 prev required symbols
      = prev ++ " required=" ++ fmt3 required ++ "\n    tests["
        ++ commaJoin ((sortSymbols symbols).map symSection) ++ "]" := by
  unfold spamStatusP2
  cases hs : sortSymbols symbols with
  | nil => simp [commaJoin, String.append_empty]
  | cons s t =>
    dsimp only
    rw [List.foldl_cons]
    dsimp only
    rw [String.append_empty, p2fold_eq_commaJoinTail, List.map_cons]
    show _ = _ ++ (symSection s ++ commaJoinTail (t.map symSection)) ++ "]"
    rw [← String.append_assoc]

/-- C6: the symbol normalization itself is correct — in both revisions the
symbols are sorted ascending by name before rendering, and the P2 revision
renders every sorted `name=score` entry — but the rescan.go status builder
never appends its final buffered `tests[` line to the accumulated value
(the loop exits and the code appends only `"]"`), so symbol sets that fit
within the wrap threshold render no entries at all: for the claim's example
symbols {BAYES_SPAM: 4.5, AWL: -0.5} it emits `No required=6.000]` instead
of a status value listing `AWL=-0.500, BAYES_SPAM=4.500`, contradicting the
spec's own end-to-end scenario (a status header containing
`tests[SPAM_A=3.000]`). -/
theorem spamStatus_sorted_but_tests_dropped :
    (∀ (prev : String) (required : Int) (symbols : List Symbol),
      spamStatusP2 prev required symbols
        = prev ++ " required=" ++ fmt3 required ++ "\n    tests["
          ++ commaJoin ((sortSymbols symbols).map symSection) ++ "]"
      ∧ (sortSymbols symbols).Sorted symLe
      ∧ (sortSymbols symbols).Perm symbols)
    ∧ spamStatusRescan "No" 6000
        [{ Description := "", MetricScore := 4500, Name := "BAYES_SPAM",
           Options := [], Score := 4500 },
         { Description := "", MetricScore := -500, Name := "AWL",
           Options := [], Score := -500 }]
      = "No required=6.000]"
    ∧ spamStatusP2 "No" 6000
        [{ Description := "", MetricScore := 4500, Name := "BAYES_SPAM",
           Options := [], Score := 4500 },
         { Description := "", MetricScore := -500, Name := "AWL",
           Options := [], Score := -500 }]
      = "No required=6.000\n    tests[AWL=-0.500, BAYES_SPAM=4.500]" := by
  refine ⟨fun prev required symbols =>
    ⟨spamStatusP2_decomposition prev required symbols,
     List.sorted_insertionSort symLe symbols,
     List.perm_insertionSort symLe symbols⟩, by decide, by decide⟩

/-! Structure of the rescan.go wrap loop (claim C7). -/

/-- A physical `tests` line as the wrap loop builds it: the tab prefix
(with the `tests[` opener on the first line) followed by the
comma-delimited whole `name=score` tokens of one chunk. -/
def chunkLine (first : Bool) (c : List String) : String :=
  (if first then "\ttests[" else "\t") ++ commaJoin c

/-- The physical lines flushed into the status value, as chunk renderings:
the first flushed chunk carries the `tests[` opener. -/
def flushedLines : List (List String) → List String
  | [] => []
  | c :: cs => chunkLine true c :: cs.map (chunkLine false)

/-- Newline-prefixed concatenation, as the wrap loop's
`spamStatus += "\n" + line` flushes produce. -/
def newlineJoin : List String → String
  | [] => ""
  | l :: ls => "\n" ++ l ++ newlineJoin ls

/-- The wrap-loop state corresponding to flushed chunks plus the current
unflushed chunk. -/
def stOf (init : String) (chunks : List (List String)) (cur : List String) :
    WrapState :=
  { spamStatus := init ++ newlineJoin (flushedLines chunks)
    line := chunkLine chunks.isEmpty cur
    delim := if chunks.isEmpty && cur.isEmpty then "" else ", " }

theorem commaJoinTail_append (xs : List String) (y : String) :
    commaJoinTail (xs ++ [y]) = commaJoinTail xs ++ (", " ++ y) := by
  induction xs with
  | nil =>
    show (", " ++ y) ++ commaJoinTail [] = "" ++ (", " ++ y)
    rw [String.empty_append]
    show (", " ++ y) ++ "" = _
    rw [String.append_empty]
  | cons x xs ih =>
    show ", " ++ x ++ commaJoinTail (xs ++ [y]) = (", " ++ x ++ commaJoinTail xs) ++ (", " ++ y)
    rw [ih, String.append_assoc (", " ++ x)]

theorem commaJoin_append (c : List String) (hc : c ≠ []) (y : String) :
    commaJoin (c ++ [y]) = commaJoin c ++ ", " ++ y := by
  cases c with
  | nil => exact absurd rfl hc
  | cons x cs =>
    show x ++ commaJoinTail (cs ++ [y]) = (x ++ commaJoinTail cs) ++ ", " ++ y
    rw [commaJoinTail_append, ← String.append_assoc x,
      String.append_assoc (x ++ commaJoinTail cs)]

theorem newlineJoin_append (xs : List String) (y : String) :
    newlineJoin (xs ++ [y]) = newlineJoin xs ++ ("\n" ++ y) := by
  induction xs with
  | nil =>
    show "\n" ++ y ++ newlineJoin [] = "" ++ ("\n" ++ y)
    rw [String.empty_append]
    show ("\n" ++ y) ++ "" = _
    rw [String.append_empty]
  | cons x xs ih =>
    show "\n" ++ x ++ newlineJoin (xs ++ [y]) = ("\n" ++ x ++ newlineJoin xs) ++ ("\n" ++ y)
    rw [ih, String.append_assoc ("\n" ++ x)]

theorem flushedLines_append (chunks : List (List String)) (c : List String) :
    flushedLines (chunks ++ [c])
      = flushedLines chunks ++ [chunkLine chunks.isEmpty c] := by
  cases chunks with
  | nil => rfl
  | cons d ds =>
    show chunkLine true d :: (ds ++ [c]).map (chunkLine false) = _
    rw [List.map_append]
    rfl

theorem isEmpty_append_singleton_false (chunks : List (List String)) (c : List String) :
    (chunks ++ [c]).isEmpty = false := by
  cases chunks <;> rfl

theorem cur_append_isEmpty_false (cur : List String) (s : String) :
    (cur ++ [s]).isEmpty = false := by
  cases cur <;> rfl

theorem chunkLine_single_false (s : String) :
    chunkLine false [s] = "\t" ++ s := by
  show "\t" ++ (s ++ commaJoinTail []) = "\t" ++ s
  show "\t" ++ (s ++ "") = "\t" ++ s
  rw [String.append_empty]

/-- The invariant of the rescan.go wrap loop: from a state that renders
flushed chunks plus a current chunk, the loop only ever appends whole
`name=score` tokens to lines and flushes whole lines, and — provided every
token fits within the budget — every flushed line stays within
`THRESHOLD + 2` characters. -/
theorem wrapFold_structure (init : String) :
    ∀ (syms : List Symbol) (chunks : List (List String)) (cur : List String),
    (∀ sym ∈ syms, (symSection sym).length ≤ THRESHOLD - 1) →
    (chunks.isEmpty = true ∨ cur ≠ []) →
    (chunkLine chunks.isEmpty cur).length ≤ THRESHOLD + 2 →
    (∀ l ∈ flushedLines chunks, l.length ≤ THRESHOLD + 2) →
    ∃ (chunks' : List (List String)) (cur' : List String),
      syms.foldl wrapStep (stOf init chunks cur) = stOf init chunks' cur'
      ∧ chunks'.flatten ++ cur' = chunks.flatten ++ cur ++ syms.map symSection
      ∧ (∀ l ∈ flushedLines chunks', l.length ≤ THRESHOLD + 2) := by
  intro syms
  induction syms with
  | nil =>
    intro chunks cur _ _ _ hflushed
    exact ⟨chunks, cur, rfl, by rw [List.map_nil, List.append_nil], hflushed⟩
  | cons sym rest ih =>
    intro chunks cur hsec hshape hcur hflushed
    rw [List.foldl_cons]
    have hsym := hsec sym (List.mem_cons_self sym rest)
    have hrest : ∀ s ∈ rest, (symSection s).length ≤ THRESHOLD - 1 :=
      fun s hs => hsec s (List.mem_cons_of_mem sym hs)
    by_cases hover :
        (chunkLine chunks.isEmpty cur).length + (symSection sym).length > THRESHOLD
    · -- overflow: the current line is flushed, the token starts a new line
      have hstep : wrapStep (stOf init chunks cur) sym
          = stOf init (chunks ++ [cur]) [symSection sym] := by
        unfold wrapStep stOf
        dsimp only
        rw [if_pos hover]
        simp only [WrapState.mk.injEq]
        refine ⟨?_, ?_, ?_⟩
        · rw [flushedLines_append, newlineJoin_append,
            ← String.append_assoc, ← String.append_assoc]
        · rw [isEmpty_append_singleton_false, chunkLine_single_false]
        · rw [isEmpty_append_singleton_false, Bool.false_and]
          simp
      have hcur1 : (chunkLine (chunks ++ [cur]).isEmpty [symSection sym]).length
          ≤ THRESHOLD + 2 := by
        rw [isEmpty_append_singleton_false, chunkLine_single_false,
          String.length_append]
        have htab : ("\t" : String).length = 1 := by decide
        rw [htab]
        unfold THRESHOLD at hsym ⊢
        omega
      have hflushed1 : ∀ l ∈ flushedLines (chunks ++ [cur]),
          l.length ≤ THRESHOLD + 2 := by
        intro l hl
        rw [flushedLines_append] at hl
        rcases List.mem_append.mp hl with hl | hl
        · exact hflushed l hl
        · rw [List.mem_singleton.mp hl]
          exact hcur
      obtain ⟨chunks', cur', heq, hjoin, hfl⟩ :=
        ih (chunks ++ [cur]) [symSection sym] hrest
          (Or.inr (by simp)) hcur1 hflushed1
      refine ⟨chunks', cur', by rw [hstep, heq], ?_, hfl⟩
      rw [hjoin, List.flatten_append, List.flatten_cons, List.flatten_nil,
        List.append_nil, List.map_cons]
      simp [List.append_assoc]
    · -- no overflow: the token joins the current line
      push_neg at hover
      have hline : chunkLine chunks.isEmpty (cur ++ [symSection sym])
          = chunkLine chunks.isEmpty cur
            ++ (if chunks.isEmpty && cur.isEmpty then "" else ", ")
            ++ symSection sym := by
        cases hcn : cur with
        | nil =>
          have hce : chunks.isEmpty = true := by
            rcases hshape with h | h
            · exact h
            · exact absurd hcn h
          rw [hce]
          simp [chunkLine, commaJoin, commaJoinTail, String.append_empty]
        | cons c cs =>
          simp only [chunkLine]
          rw [show ((c :: cs : List String).isEmpty) = false from rfl,
            Bool.and_false,
            commaJoin_append (c :: cs) (by simp) (symSection sym)]
          simp [String.append_assoc]
      have hstep : wrapStep (stOf init chunks cur) sym
          = stOf init chunks (cur ++ [symSection sym]) := by
        unfold wrapStep stOf
        dsimp only
        rw [if_neg (by omega)]
        simp only [WrapState.mk.injEq]
        refine ⟨trivial, hline.symm, ?_⟩
        rw [cur_append_isEmpty_false, Bool.and_false]
        simp
      have hcur1 : (chunkLine chunks.isEmpty (cur ++ [symSection sym])).length
          ≤ THRESHOLD + 2 := by
        rw [hline, String.length_append, String.length_append]
        have hd : (if chunks.isEmpty && cur.isEmpty then ("" : String)
            else ", ").length ≤ 2 := by
          split
          · decide
          · decide
        unfold THRESHOLD at hover ⊢
        omega
      obtain ⟨chunks', cur', heq, hjoin, hfl⟩ :=
        ih chunks (cur ++ [symSection sym]) hrest
          (Or.inr (by simp)) hcur1 hflushed
      refine ⟨chunks', cur', by rw [hstep, heq], ?_, hfl⟩
      rw [hjoin, List.map_cons]
      simp [List.append_assoc]

/-- C7 (amended): in the synthesized status value, wrapping occurs only at
symbol-entry boundaries — the flushed physical lines partition a prefix of
the sorted `name=score` token list into whole-token chunks, so no token is
ever split — and, provided every token is at most `THRESHOLD - 1`
characters, every flushed `tests` line is at most `THRESHOLD + 2`
characters, which stays under `MAX_HEADER_LENGTH` even with the trailing
`]`. The first physical line (the pre-existing status value plus
`required=...`) is not wrapped at all and can exceed every budget (see the
counterexample), and the final buffered line is dropped rather than
emitted, so the chunks cover only a prefix of the token list. -/
theorem spamStatusRescan_wrap_structure (prev : String) (required : Int)
    (symbols : List Symbol)
    (hs : ∀ sym ∈ symbols, (symSection sym).length ≤ THRESHOLD - 1) :
    ∃ (chunks : List (List String)) (cur : List String),
      spamStatusRescan prev required symbols
        = prev ++ " required=" ++ fmt3 required
          ++ newlineJoin (flushedLines chunks) ++ "]"
      ∧ chunks.flatten ++ cur = (sortSymbols symbols).map symSection
      ∧ ∀ l ∈ flushedLines chunks,
          l.length ≤ THRESHOLD + 2 ∧ l.length + 1 ≤ MAX_HEADER_LENGTH := by
  have hs' : ∀ sym ∈ sortSymbols symbols,
      (symSection sym).length ≤ THRESHOLD - 1 :=
    fun s hmem => hs s ((List.perm_insertionSort symLe symbols).subset hmem)
  obtain ⟨chunks, cur, heq, hjoin, hfl⟩ :=
    wrapFold_structure (prev ++ " required=" ++ fmt3 required)
      (sortSymbols symbols) [] [] hs' (Or.inl rfl) (by decide)
      (by intro l hl; simp [flushedLines] at hl)
  have hinit : ({ spamStatus := prev ++ " required=" ++ fmt3 required,
                  line := "\ttests[", delim := "" } : WrapState)
      = stOf (prev ++ " required=" ++ fmt3 required) [] [] := by
    unfold stOf
    simp [flushedLines, newlineJoin, chunkLine, commaJoin,
      String.append_empty]
  refine ⟨chunks, cur, ?_, ?_, ?_⟩
  · unfold spamStatusRescan
    dsimp only
    rw [hinit, heq]
    rfl
  · simpa using hjoin
  · intro l hl
    refine ⟨hfl l hl, ?_⟩
    have := hfl l hl
    unfold THRESHOLD at this
    unfold MAX_HEADER_LENGTH
    omega

/-- C7 counterexample: with an 80-character pre-existing status value and no
symbols, the synthesized status value is one single physical line (it
contains no newline) of 96 characters, exceeding both the wrap threshold
and the maximum header length — the first line is never wrapped. -/
theorem spamStatus_line_length_counterexample :
    (spamStatusRescan (String.mk (List.replicate 80 'a')) 6000 []).length = 96
    ∧ '\n' ∉ (spamStatusRescan (String.mk (List.replicate 80 'a')) 6000 []).toList
    ∧ 96 > MAX_HEADER_LENGTH ∧ 96 > THRESHOLD := by
  refine ⟨by decide, by decide, by decide, by decide⟩

/-- C7 witness: the wrap-structure theorem at the claim's example symbol
set. -/
theorem spamStatusRescan_wrap_structure_witness :
    (∀ sym ∈ [({ Description := "", MetricScore := 4500, Name := "BAYES_SPAM",
                 Options := [], Score := 4500 } : Symbol),
              { Description := "", MetricScore := -500, Name := "AWL",
                Options := [], Score := -500 }],
      (symSection sym).length ≤ THRESHOLD - 1)
    ∧ ∃ (chunks : List (List String)) (cur : List String),
      spamStatusRescan "No" 6000
          [{ Description := "", MetricScore := 4500, Name := "BAYES_SPAM",
             Options := [], Score := 4500 },
           { Description := "", MetricScore := -500, Name := "AWL",
             Options := [], Score := -500 }]
        = "No" ++ " required=" ++ fmt3 6000
          ++ newlineJoin (flushedLines chunks) ++ "]"
      ∧ chunks.flatten ++ cur
        = (sortSymbols
            [{ Description := "", MetricScore := 4500, Name := "BAYES_SPAM",
               Options := [], Score := 4500 },
             { Description := "", MetricScore := -500, Name := "AWL",
               Options := [], Score := -500 }]).map symSection
      ∧ ∀ l ∈ flushedLines chunks,
          l.length ≤ THRESHOLD + 2 ∧ l.length + 1 ≤ MAX_HEADER_LENGTH :=
  ⟨by decide,
   spamStatusRescan_wrap_structure "No" 6000
     [{ Description := "", MetricScore := 4500, Name := "BAYES_SPAM",
        Options := [], Score := 4500 },
      { Description := "", MetricScore := -500, Name := "AWL",
        Options := [], Score := -500 }] (by decide)⟩

/-! Reputation lookup claims (C8, C10). -/

theorem scoreLoop_last : ∀ (ips : List IPAddr) (s : Int) (a b c d : Nat),
    (∀ ip ∈ ips, (ip.to4).isSome) →
    ips.getLast? = some (IPAddr.v4 a b c d) →
    scoreLoop ips s = some (Int.ofNat d) := by
  intro ips
  induction ips with
  | nil => intro s a b c d _ hlast; simp at hlast
  | cons ip rest ih =>
    intro s a b c d hall hlast
    cases rest with
    | nil =>
      simp at hlast
      rw [hlast]
      rfl
    | cons ip2 rest2 =>
      rw [List.getLast?_cons_cons] at hlast
      have h4 := hall ip (List.mem_cons_self ip (ip2 :: rest2))
      cases hip : ip.to4 with
      | none => rw [hip] at h4; simp at h4
      | some q =>
        obtain ⟨qa, qb, qc, qd⟩ := q
        simp only [scoreLoop, hip]
        exact ih (Int.ofNat qd) a b c d (fun x hx => hall x (List.mem_cons_of_mem ip hx)) hlast

theorem scoreLoop_isSome : ∀ (ips : List IPAddr) (s : Int),
    (∀ ip ∈ ips, (ip.to4).isSome) → (scoreLoop ips s).isSome := by
  intro ips
  induction ips with
  | nil => intro s _; rfl
  | cons ip rest ih =>
    intro s hall
    have h4 := hall ip (List.mem_cons_self ip rest)
    cases hip : ip.to4 with
    | none => rw [hip] at h4; simp at h4
    | some q =>
      obtain ⟨qa, qb, qc, qd⟩ := q
      simp only [scoreLoop, hip]
      exact ih _ (fun x hx => hall x (List.mem_cons_of_mem ip hx))

/-- C8: for a dotted-quad sender address the reputation lookup queries
exactly the octet-reversed name under `score.senderscore.com`, and when the
resolution yields one or more IPv4 addresses the returned score is the last
octet of the last address enumerated. -/
theorem senderscore_reversed_lookup_last_octet
    (addr o0 o1 o2 o3 : String)
    (hsplit : strSplitOn addr '.' = [o0, o1, o2, o3])
    (lookup : String → Except String (List IPAddr))
    (ips : List IPAddr) (a b c d : Nat)
    (hlast : ips.getLast? = some (IPAddr.v4 a b c d))
    (hall : ∀ ip ∈ ips, (ip.to4).isSome)
    (hlk : lookup (o3 ++ "." ++ o2 ++ "." ++ o1 ++ "." ++ o0
        ++ ".score.senderscore.com") = .ok ips) :
    senderScoreLookupName addr
      = some (o3 ++ "." ++ o2 ++ "." ++ o1 ++ "." ++ o0
          ++ ".score.senderscore.com")
    ∧ getSenderScore addr lookup = some (.ok (Int.ofNat d)) := by
  have hname : senderScoreLookupName addr
      = some (o3 ++ "." ++ o2 ++ "." ++ o1 ++ "." ++ o0
          ++ ".score.senderscore.com") := by
    unfold senderScoreLookupName
    rw [hsplit]
    rfl
  refine ⟨hname, ?_⟩
  unfold getSenderScore
  rw [hname]
  dsimp only
  rw [hlk]
  dsimp only
  rw [scoreLoop_last ips 0 a b c d hall hlast]
  rfl

/-- C8 witness: the lookup theorem at address `1.2.3.4` with two resolved
addresses; the queried name is `4.3.2.1.score.senderscore.com` and the last
address wins. -/
theorem senderscore_reversed_lookup_last_octet_witness :
    strSplitOn "1.2.3.4" '.' = ["1", "2", "3", "4"]
    ∧ senderScoreLookupName "1.2.3.4" = some "4.3.2.1.score.senderscore.com"
    ∧ getSenderScore "1.2.3.4"
        (fun n => if n = "4.3.2.1.score.senderscore.com"
                  then .ok [.v4 127 0 4 42, .v4 127 0 4 7] else .error "nx")
      = some (.ok (Int.ofNat 7)) := by
  have h := senderscore_reversed_lookup_last_octet "1.2.3.4" "1" "2" "3" "4"
    (by decide)
    (fun n => if n = "4.3.2.1.score.senderscore.com"
              then .ok [.v4 127 0 4 42, .v4 127 0 4 7] else .error "nx")
    [.v4 127 0 4 42, .v4 127 0 4 7] 127 0 4 7 (by decide) (by decide)
    (by decide)
  exact ⟨by decide, by
    have h1 := h.1
    simpa using h1, h.2⟩

/-- C10: the reputation lookup is total under the stated precondition — for
an address splitting into (at least) four dotted octets and a resolver
whose successful answers all convert to IPv4, `getSenderScore` never panics
(the octet indexing and the `To4()[3]` indexing stay in bounds): it returns
`some` result, an integer score or an error. -/
theorem getSenderScore_total_on_ipv4
    (addr : String) (lookup : String → Except String (List IPAddr))
    (o0 o1 o2 o3 : String)
    (hsplit : strSplitOn addr '.' = [o0, o1, o2, o3])
    (hres : ∀ name ips, lookup name = .ok ips → ∀ ip ∈ ips, (ip.to4).isSome) :
    (getSenderScore addr lookup).isSome := by
  unfold getSenderScore senderScoreLookupName
  rw [hsplit]
  simp only [List.getElem?_cons_succ, List.getElem?_cons_zero]
  cases hlk : lookup (o3 ++ "." ++ o2 ++ "." ++ o1 ++ "." ++ o0
      ++ ".score.senderscore.com") with
  | error e => rfl
  | ok ips =>
    have := scoreLoop_isSome ips 0 (hres _ ips hlk)
    cases hsl : scoreLoop ips 0 with
    | none => rw [hsl] at this; simp at this
    | some v => simp [hsl]

/-- C10 witness: totality at a concrete dotted quad and resolver. -/
theorem getSenderScore_total_on_ipv4_witness :
    strSplitOn "203.0.113.9" '.' = ["203", "0", "113", "9"]
    ∧ (getSenderScore "203.0.113.9" (fun _ => .ok [.v4 10 0 0 3])).isSome :=
  ⟨by decide,
   getSenderScore_total_on_ipv4 "203.0.113.9" (fun _ => .ok [.v4 10 0 0 3])
     "203" "0" "113" "9" (by decide)
     (fun _ ips hok => by
       injection hok with h
       rw [← h]
       intro ip hip
       simp at hip
       rw [hip]
       rfl)⟩

/-! Path lemmas for `generateOutputPath` (claim C9). -/

/-- A canonical path segment: nonempty, not a dot segment, and free of
separators. -/
def ValidSegC (s : List Char) : Prop :=
  s ≠ [] ∧ s ≠ ['.'] ∧ s ≠ ['.', '.'] ∧ '/' ∉ s

/-- A canonical path segment, at the string level. -/
def ValidSeg (s : String) : Prop :=
  ValidSegC s.toList

instance : DecidablePred ValidSegC := fun s => by
  unfold ValidSegC; infer_instance

instance : DecidablePred ValidSeg := fun s => by
  unfold ValidSeg; infer_instance

/-- The absolute path rooted at `/` through the given segments. -/
def absPath (segs : List String) : String :=
  String.mk ('/' :: joinSegs (segs.map String.toList))

theorem toList_append (a b : String) : (a ++ b).toList = a.toList ++ b.toList :=
  String.data_append a b

theorem splitChar_ne_nil (sep : Char) : ∀ (l : List Char), splitChar sep l ≠ [] := by
  intro l
  induction l with
  | nil => simp [splitChar]
  | cons c cs ih =>
    cases h : splitChar sep cs with
    | nil => exact absurd h ih
    | cons s ss =>
      simp only [splitChar, h]
      split <;> simp

theorem splitChar_cons_sep (l : List Char) :
    splitChar '/' ('/' :: l) = [] :: splitChar '/' l := by
  cases h : splitChar '/' l with
  | nil => exact absurd h (splitChar_ne_nil '/' l)
  | cons s ss =>
    simp only [splitChar, h]
    simp

theorem splitChar_no_sep : ∀ (s : List Char), '/' ∉ s →
    splitChar '/' s = [s] := by
  intro s
  induction s with
  | nil => intro _; rfl
  | cons c cs ih =>
    intro hmem
    have hc : c ≠ '/' := fun h => hmem (h ▸ List.mem_cons_self c cs)
    have hcs : '/' ∉ cs := fun h => hmem (List.mem_cons_of_mem c h)
    simp only [splitChar, ih hcs]
    simp [hc]

theorem splitChar_seg : ∀ (s : List Char), '/' ∉ s → ∀ (r : List Char),
    splitChar '/' (s ++ '/' :: r) = s :: splitChar '/' r := by
  intro s
  induction s with
  | nil => intro _ r; exact splitChar_cons_sep r
  | cons c cs ih =>
    intro hmem r
    have hc : c ≠ '/' := fun h => hmem (h ▸ List.mem_cons_self c cs)
    have hcs : '/' ∉ cs := fun h => hmem (List.mem_cons_of_mem c h)
    rw [List.cons_append]
    cases h : splitChar '/' (cs ++ '/' :: r) with
    | nil => exact absurd h (splitChar_ne_nil '/' _)
    | cons s ss =>
      simp only [splitChar, h]
      rw [ih hcs r] at h
      injection h with h1 h2
      simp [hc, h1, h2]

theorem joinSegs_cons_cons (a b : List Char) (L : List (List Char)) :
    joinSegs (a :: b :: L) = a ++ '/' :: joinSegs (b :: L) := rfl

theorem joinSegs_append : ∀ (A : List (List Char)), A ≠ [] →
    ∀ (B : List (List Char)), B ≠ [] →
    joinSegs (A ++ B) = joinSegs A ++ '/' :: joinSegs B := by
  intro A
  induction A with
  | nil => intro h; exact absurd rfl h
  | cons a A' ih =>
    intro _ B hB
    cases A' with
    | nil =>
      cases B with
      | nil => exact absurd rfl hB
      | cons b B' => rfl
    | cons a' A'' =>
      show joinSegs (a :: a' :: (A'' ++ B)) = joinSegs (a :: a' :: A'') ++ '/' :: joinSegs B
      rw [joinSegs_cons_cons, joinSegs_cons_cons,
        show (a' :: (A'' ++ B)) = (a' :: A'') ++ B from rfl,
        ih (by simp) B hB, List.append_assoc]
      rfl

theorem splitChar_joinSegs : ∀ (A : List (List Char)), A ≠ [] →
    (∀ a ∈ A, '/' ∉ a) →
    splitChar '/' (joinSegs A) = A := by
  intro A
  induction A with
  | nil => intro h; exact absurd rfl h
  | cons a A' ih =>
    intro _ hns
    cases A' with
    | nil => exact splitChar_no_sep a (hns a (List.mem_cons_self a []))
    | cons a' A'' =>
      show splitChar '/' (joinSegs (a :: a' :: A'')) = _
      rw [show joinSegs (a :: a' :: A'') = a ++ '/' :: joinSegs (a' :: A'') from rfl,
        splitChar_seg a (hns a (List.mem_cons_self a (a' :: A''))),
        ih (by simp) (fun x hx => hns x (List.mem_cons_of_mem a hx))]

theorem splitChar_joinSegs_slash : ∀ (A : List (List Char)), A ≠ [] →
    (∀ a ∈ A, '/' ∉ a) →
    splitChar '/' (joinSegs A ++ ['/']) = A ++ [[]] := by
  intro A
  induction A with
  | nil => intro h; exact absurd rfl h
  | cons a A' ih =>
    intro _ hns
    cases A' with
    | nil =>
      show splitChar '/' (a ++ '/' :: []) = [a, []]
      rw [splitChar_seg a (hns a (List.mem_cons_self a []))]
      rfl
    | cons a' A'' =>
      show splitChar '/' (joinSegs (a :: a' :: A'') ++ ['/']) = _
      rw [show joinSegs (a :: a' :: A'') = a ++ '/' :: joinSegs (a' :: A'') from rfl,
        List.append_assoc, List.cons_append,
        splitChar_seg a (hns a (List.mem_cons_self a (a' :: A''))),
        ih (by simp) (fun x hx => hns x (List.mem_cons_of_mem a hx))]
      rfl

theorem cleanSegs_cons_empty (rooted : Bool) (L acc : List (List Char)) :
    cleanSegs rooted ([] :: L) acc = cleanSegs rooted L acc := by
  conv_lhs => rw [cleanSegs.eq_def]
  simp

theorem cleanSegs_cons_valid (rooted : Bool) (s : List Char)
    (L acc : List (List Char)) (h1 : s ≠ []) (h2 : s ≠ ['.'])
    (h3 : s ≠ ['.', '.']) :
    cleanSegs rooted (s :: L) acc = cleanSegs rooted L (s :: acc) := by
  conv_lhs => rw [cleanSegs.eq_def]
  simp [h1, h2, h3]

theorem cleanSegs_mixed : ∀ (L acc : List (List Char)),
    (∀ s ∈ L, s = [] ∨ ValidSegC s) →
    cleanSegs true L acc = acc.reverse ++ L.filter (fun s => !s.isEmpty) := by
  intro L
  induction L with
  | nil => intro acc _; simp [cleanSegs]
  | cons s L' ih =>
    intro acc hall
    rcases hall s (List.mem_cons_self s L') with hs | hs
    · subst hs
      rw [cleanSegs_cons_empty,
        ih acc (fun x hx => hall x (List.mem_cons_of_mem [] hx))]
      simp
    · obtain ⟨h1, h2, h3, _⟩ := hs
      rw [cleanSegs_cons_valid true s L' acc h1 h2 h3,
        ih (s :: acc) (fun x hx => hall x (List.mem_cons_of_mem s hx))]
      have hne : s.isEmpty = false := by
        cases s with
        | nil => exact absurd rfl h1
        | cons c cs => rfl
      simp [hne, List.append_assoc]

theorem strMk_ne_empty (c : Char) (l : List Char) : String.mk (c :: l) ≠ "" := by
  intro h
  have := congrArg String.toList h
  simp at this

theorem filter_valid_self (A : List (List Char)) (hA : ∀ a ∈ A, ValidSegC a) :
    A.filter (fun s => !s.isEmpty) = A :=
  List.filter_eq_self.mpr (fun x hx => by
    have h1 := (hA x hx).1
    cases x with
    | nil => exact absurd rfl h1
    | cons c cs => rfl)

theorem pathCleanCore_cons_slash (l : List Char) :
    pathCleanCore ('/' :: l)
      = '/' :: joinSegs (cleanSegs true (splitChar '/' ('/' :: l)) []) := by
  unfold pathCleanCore
  rw [show ((('/' : Char) :: l).head? == some '/') = true from rfl]
  simp

theorem pathClean_rooted (A : List (List Char)) (hA : ∀ a ∈ A, ValidSegC a)
    (extra : List Char) (hex : extra = [] ∨ extra = ['/']) :
    pathClean (String.mk ('/' :: (joinSegs A ++ extra)))
      = String.mk ('/' :: joinSegs A) := by
  have hTL : (String.mk ('/' :: (joinSegs A ++ extra))).toList
      = '/' :: (joinSegs A ++ extra) := rfl
  have hclean : cleanSegs true ([] :: splitChar '/' (joinSegs A ++ extra)) [] = A := by
    cases A with
    | nil =>
      rcases hex with hex | hex <;> subst hex
      · rfl
      · rfl
    | cons a A' =>
      have hAne : (a :: A' : List (List Char)) ≠ [] := by simp
      have hns : ∀ x ∈ (a :: A' : List (List Char)), '/' ∉ x :=
        fun x hx => (hA x hx).2.2.2
      rcases hex with hex | hex <;> subst hex
      · rw [List.append_nil, splitChar_joinSegs (a :: A') hAne hns,
          cleanSegs_mixed ([] :: a :: A') []
            (by
              intro x hx
              rcases List.mem_cons.mp hx with h | h
              · exact Or.inl h
              · exact Or.inr (hA x h))]
        rw [show (([] :: a :: A').filter (fun s => !s.isEmpty))
              = ((a :: A').filter (fun s => !s.isEmpty)) from rfl,
          filter_valid_self (a :: A') hA]
        rfl
      · rw [splitChar_joinSegs_slash (a :: A') hAne hns,
          cleanSegs_mixed ([] :: ((a :: A') ++ [[]])) []
            (by
              intro x hx
              rcases List.mem_cons.mp hx with h | h
              · exact Or.inl h
              · rcases List.mem_append.mp h with h | h
                · exact Or.inr (hA x h)
                · exact Or.inl (List.mem_singleton.mp h))]
        rw [show (([] :: ((a :: A') ++ [[]])).filter (fun s => !s.isEmpty))
              = (((a :: A') ++ [[]]).filter (fun s => !s.isEmpty)) from rfl,
          List.filter_append, filter_valid_self (a :: A') hA]
        simp
  unfold pathClean
  rw [if_neg (strMk_ne_empty _ _), hTL, pathCleanCore_cons_slash,
    splitChar_cons_sep, hclean]
  rfl

theorem dropWhile_ne_slash : ∀ (l : List Char), (∀ c ∈ l, c ≠ '/') →
    ∀ (r : List Char),
    (l ++ '/' :: r).dropWhile (· ≠ '/') = '/' :: r := by
  intro l
  induction l with
  | nil => intro _ r; rw [List.nil_append, List.dropWhile_cons, if_neg (by decide)]
  | cons c cs ih =>
    intro hall r
    have hc := hall c (List.mem_cons_self c cs)
    rw [List.cons_append, List.dropWhile_cons,
      if_pos (show decide (c ≠ '/') = true from decide_eq_true hc)]
    exact ih (fun x hx => hall x (List.mem_cons_of_mem c hx)) r

theorem takeWhile_ne_slash : ∀ (l : List Char), (∀ c ∈ l, c ≠ '/') →
    ∀ (r : List Char),
    (l ++ '/' :: r).takeWhile (· ≠ '/') = l := by
  intro l
  induction l with
  | nil => intro _ r; rw [List.nil_append, List.takeWhile_cons, if_neg (by decide)]
  | cons c cs ih =>
    intro hall r
    have hc := hall c (List.mem_cons_self c cs)
    rw [List.cons_append, List.takeWhile_cons,
      if_pos (show decide (c ≠ '/') = true from decide_eq_true hc)]
    rw [ih (fun x hx => hall x (List.mem_cons_of_mem c hx)) r]

theorem upToLastSlash_split (X Y : List Char) (h : '/' ∉ Y) :
    upToLastSlash (X ++ '/' :: Y) = X ++ ['/'] := by
  unfold upToLastSlash
  rw [List.reverse_append, List.reverse_cons, List.append_assoc,
    List.singleton_append,
    dropWhile_ne_slash Y.reverse
      (fun c hc he => h (List.mem_reverse.mp (he ▸ hc))) X.reverse,
    List.reverse_cons, List.reverse_reverse]

theorem pathDir_split (p : String) (X Y : List Char)
    (hp : p.toList = X ++ '/' :: Y) (h : '/' ∉ Y) :
    pathDir p = pathClean (String.mk (X ++ ['/'])) := by
  unfold pathDir
  rw [hp, upToLastSlash_split X Y h]

theorem pathBase_split (p : String) (X Y : List Char)
    (hp : p.toList = X ++ '/' :: Y) (hY : Y ≠ []) (h : '/' ∉ Y) :
    pathBase p = String.mk Y := by
  have hpne : p ≠ "" := by
    intro he
    rw [he] at hp
    cases X <;> simp at hp
  obtain ⟨z, Z, hzz⟩ : ∃ z Z, Y.reverse = z :: Z := by
    cases hYr : Y.reverse with
    | nil =>
      have := congrArg List.reverse hYr
      simp at this
      exact absurd this hY
    | cons z Z => exact ⟨z, Z, rfl⟩
  have hzmem : ∀ c ∈ (z :: Z : List Char), c ≠ '/' := by
    intro c hc he
    subst he
    apply h
    rw [← List.mem_reverse, hzz]
    exact hc
  have hdw : p.toList.reverse.dropWhile (· = '/')
      = z :: (Z ++ '/' :: X.reverse) := by
    rw [hp, List.reverse_append, List.reverse_cons, List.append_assoc,
      List.singleton_append, hzz, List.cons_append, List.dropWhile_cons]
    have hz := hzmem z (List.mem_cons_self z Z)
    rw [if_neg (by simp [hz])]
  unfold pathBase
  rw [if_neg hpne]
  simp only [hdw]
  rw [if_neg (by simp), List.reverse_reverse,
    show z :: (Z ++ '/' :: X.reverse) = (z :: Z) ++ '/' :: X.reverse from rfl,
    takeWhile_ne_slash (z :: Z) hzmem X.reverse,
    show (z :: Z : List Char) = Y.reverse from hzz.symm,
    List.reverse_reverse]

theorem string_ext' (a b : String) (h : a.toList = b.toList) : a = b :=
  congrArg String.mk h

/-- C9: for every canonical absolute path `<parent>/cur/<name>` (parent a
nonempty chain of valid segments, name a valid leaf), the derived output
path is `<parent>/rescan/<name>`, the only filesystem effect is creating
`<parent>/rescan` (`os.MkdirAll`), and the output path differs from the
input path, so the original file is never touched; for every input whose
immediate parent directory is not named `cur`, derivation fails with the
`dir not cur` error and no effect occurs. -/
theorem generateOutputPath_spec :
    (∀ (segs : List String) (name : String), segs ≠ [] →
      (∀ s ∈ segs, ValidSeg s) → ValidSeg name →
      generateOutputPath (absPath segs ++ "/cur/" ++ name)
        = (.ok (absPath segs ++ "/rescan/" ++ name),
           [FsEffect.mkdirAll (absPath segs ++ "/rescan")])
      ∧ absPath segs ++ "/rescan/" ++ name ≠ absPath segs ++ "/cur/" ++ name)
    ∧ (∀ p : String, pathBase (pathDir p) ≠ "cur" →
      generateOutputPath p
        = (.error (dirNotCurMsg (pathDir p) (pathBase p)
            (pathDir (pathDir p)) (pathBase (pathDir p))), [])) := by
  constructor
  · intro segs name hne hval hvname
    set segsC := segs.map String.toList with hsegsC
    have hsegsCne : segsC ≠ [] := by
      rw [hsegsC]
      intro h
      exact hne (List.map_eq_nil_iff.mp h)
    have hvalidC : ∀ a ∈ segsC, ValidSegC a := by
      intro a ha
      obtain ⟨s, hs, rfl⟩ := List.mem_map.mp ha
      exact hval s hs
    obtain ⟨hn1, hn2, hn3, hn4⟩ := hvname
    have hcurv : ValidSegC ['c', 'u', 'r'] := by decide
    have hrescanv : ValidSegC ['r', 'e', 's', 'c', 'a', 'n'] := by decide
    -- the input path decomposed at its last slash
    have hP : (absPath segs ++ "/cur/" ++ name).toList
        = ('/' :: joinSegs (segsC ++ [['c', 'u', 'r']])) ++ '/' :: name.toList := by
      rw [toList_append, toList_append,
        joinSegs_append segsC hsegsCne [['c', 'u', 'r']] (by simp)]
      show ('/' :: joinSegs segsC) ++ ('/' :: 'c' :: 'u' :: 'r' :: '/' :: [])
          ++ name.toList = _
      simp [joinSegs, List.append_assoc]
    -- Dir(input) = <parent>/cur
    have hfilePath : pathDir (absPath segs ++ "/cur/" ++ name)
        = String.mk ('/' :: joinSegs (segsC ++ [['c', 'u', 'r']])) := by
      rw [pathDir_split _ _ _ hP hn4,
        show ('/' :: joinSegs (segsC ++ [['c', 'u', 'r']])) ++ ['/']
          = '/' :: (joinSegs (segsC ++ [['c', 'u', 'r']]) ++ ['/']) from rfl,
        pathClean_rooted (segsC ++ [['c', 'u', 'r']])
          (by
            intro a ha
            rcases List.mem_append.mp ha with h | h
            · exact hvalidC a h
            · rw [List.mem_singleton.mp h]; exact hcurv)
          ['/'] (Or.inr rfl)]
    -- Base(input) = name
    have hfileName : pathBase (absPath segs ++ "/cur/" ++ name) = name := by
      rw [pathBase_split _ _ _ hP hn1 hn4]
      exact string_ext' _ _ rfl
    -- Dir(Dir(input)) = <parent>
    have hfpList : (String.mk ('/' :: joinSegs (segsC ++ [['c', 'u', 'r']]))).toList
        = ('/' :: joinSegs segsC) ++ '/' :: ['c', 'u', 'r'] := by
      show '/' :: joinSegs (segsC ++ [['c', 'u', 'r']]) = _
      rw [joinSegs_append segsC hsegsCne [['c', 'u', 'r']] (by simp)]
      rfl
    have hparent : pathDir (String.mk ('/' :: joinSegs (segsC ++ [['c', 'u', 'r']])))
        = absPath segs := by
      rw [pathDir_split _ _ _ hfpList (by decide),
        show ('/' :: joinSegs segsC) ++ ['/'] = '/' :: (joinSegs segsC ++ ['/'])
          from rfl,
        pathClean_rooted segsC hvalidC ['/'] (Or.inr rfl)]
      rfl
    -- Base(Dir(input)) = "cur"
    have hdir : pathBase (String.mk ('/' :: joinSegs (segsC ++ [['c', 'u', 'r']])))
        = "cur" := by
      rw [pathBase_split _ _ _ hfpList (by decide) (by decide)]
    -- Join(parent, "rescan", name) = <parent>/rescan/<name>
    have habs_ne : absPath segs ≠ "" := strMk_ne_empty _ _
    have hname_ne : name ≠ "" := by
      intro h
      rw [h] at hn1
      exact hn1 rfl
    have hfilter : ([absPath segs, "rescan", name].filter (fun e => e ≠ ""))
        = [absPath segs, "rescan", name] :=
      List.filter_eq_self.mpr (fun x hx => by
        rcases List.mem_cons.mp hx with h | h
        · rw [h]; exact decide_eq_true habs_ne
        rcases List.mem_cons.mp h with h | h
        · rw [h]; exact decide_eq_true (by decide)
        · rw [List.mem_singleton.mp h]; exact decide_eq_true hname_ne)
    have hjoin3 : joinSegs [(absPath segs).toList, "rescan".toList, name.toList]
        = '/' :: (joinSegs (segsC ++ [['r', 'e', 's', 'c', 'a', 'n'], name.toList]) ++ []) := by
      rw [List.append_nil,
        joinSegs_append segsC hsegsCne
          [['r', 'e', 's', 'c', 'a', 'n'], name.toList] (by simp)]
      rfl
    have houtPath : pathJoin [absPath segs, "rescan", name]
        = String.mk ('/' :: joinSegs (segsC ++ [['r', 'e', 's', 'c', 'a', 'n'], name.toList])) := by
      unfold pathJoin
      rw [hfilter, if_neg (by simp)]
      show pathClean (String.mk (joinSegs
        [(absPath segs).toList, "rescan".toList, name.toList])) = _
      rw [hjoin3, pathClean_rooted
        (segsC ++ [['r', 'e', 's', 'c', 'a', 'n'], name.toList])
        (by
          intro a ha
          rcases List.mem_append.mp ha with h | h
          · exact hvalidC a h
          rcases List.mem_cons.mp h with h | h
          · rw [h]; exact hrescanv
          · rw [List.mem_singleton.mp h]; exact ⟨hn1, hn2, hn3, hn4⟩)
        [] (Or.inl rfl)]
    have houtEq : String.mk ('/' :: joinSegs (segsC ++ [['r', 'e', 's', 'c', 'a', 'n'], name.toList]))
        = absPath segs ++ "/rescan/" ++ name := by
      apply string_ext'
      show '/' :: joinSegs (segsC ++ [['r', 'e', 's', 'c', 'a', 'n'], name.toList])
          = (absPath segs ++ "/rescan/" ++ name).toList
      rw [toList_append, toList_append,
        joinSegs_append segsC hsegsCne
          [['r', 'e', 's', 'c', 'a', 'n'], name.toList] (by simp)]
      show '/' :: (joinSegs segsC ++ '/' :: (['r', 'e', 's', 'c', 'a', 'n'] ++ '/' :: name.toList))
          = ('/' :: joinSegs segsC) ++ ('/' :: 'r' :: 'e' :: 's' :: 'c' :: 'a' :: 'n' :: '/' :: []) ++ name.toList
      simp [List.append_assoc]
    -- Dir(outPath) = <parent>/rescan
    have houtList : (String.mk ('/' :: joinSegs (segsC ++ [['r', 'e', 's', 'c', 'a', 'n'], name.toList]))).toList
        = ('/' :: joinSegs (segsC ++ [['r', 'e', 's', 'c', 'a', 'n']])) ++ '/' :: name.toList := by
      show '/' :: joinSegs (segsC ++ [['r', 'e', 's', 'c', 'a', 'n'], name.toList]) = _
      rw [show segsC ++ [['r', 'e', 's', 'c', 'a', 'n'], name.toList]
          = (segsC ++ [['r', 'e', 's', 'c', 'a', 'n']]) ++ [name.toList] from by
            simp,
        joinSegs_append (segsC ++ [['r', 'e', 's', 'c', 'a', 'n']]) (by simp)
          [name.toList] (by simp),
        joinSegs_append segsC hsegsCne [['r', 'e', 's', 'c', 'a', 'n']] (by simp)]
      rfl
    have houtDir : pathDir (String.mk ('/' :: joinSegs (segsC ++ [['r', 'e', 's', 'c', 'a', 'n'], name.toList])))
        = absPath segs ++ "/rescan" := by
      rw [pathDir_split _ _ _ houtList hn4,
        show ('/' :: joinSegs (segsC ++ [['r', 'e', 's', 'c', 'a', 'n']])) ++ ['/']
          = '/' :: (joinSegs (segsC ++ [['r', 'e', 's', 'c', 'a', 'n']]) ++ ['/'])
          from rfl,
        pathClean_rooted (segsC ++ [['r', 'e', 's', 'c', 'a', 'n']])
          (by
            intro a ha
            rcases List.mem_append.mp ha with h | h
            · exact hvalidC a h
            · rw [List.mem_singleton.mp h]; exact hrescanv)
          ['/'] (Or.inr rfl)]
      apply string_ext'
      show '/' :: joinSegs (segsC ++ [['r', 'e', 's', 'c', 'a', 'n']])
          = (absPath segs ++ "/rescan").toList
      rw [toList_append,
        joinSegs_append segsC hsegsCne [['r', 'e', 's', 'c', 'a', 'n']] (by simp)]
      show '/' :: (joinSegs segsC ++ '/' :: ['r', 'e', 's', 'c', 'a', 'n'])
          = ('/' :: joinSegs segsC) ++ ('/' :: 'r' :: 'e' :: 's' :: 'c' :: 'a' :: 'n' :: [])
      simp
    constructor
    · simp only [generateOutputPath]
      rw [hfilePath, hfileName, hparent, hdir,
        if_neg (fun hh => hh rfl), houtPath, houtDir, houtEq]
    · intro h
      have hlen := congrArg String.length h
      rw [String.length_append, String.length_append,
        String.length_append, String.length_append] at hlen
      have h1 : ("/rescan/" : String).length = 8 := by decide
      have h2 : ("/cur/" : String).length = 5 := by decide
      rw [h1, h2] at hlen
      omega
  · intro p h
    simp only [generateOutputPath]
    rw [if_pos h]

theorem generateOutputPath_spec_witness :
    (["home", "u", "Maildir"] : List String) ≠ []
    ∧ (∀ s ∈ (["home", "u", "Maildir"] : List String), ValidSeg s)
    ∧ ValidSeg "17.eml"
    ∧ generateOutputPath (absPath ["home", "u", "Maildir"] ++ "/cur/" ++ "17.eml")
      = (.ok (absPath ["home", "u", "Maildir"] ++ "/rescan/" ++ "17.eml"),
         [FsEffect.mkdirAll (absPath ["home", "u", "Maildir"] ++ "/rescan")])
    ∧ pathBase (pathDir "/home/u/Maildir/tmp/17.eml") ≠ "cur"
    ∧ generateOutputPath "/home/u/Maildir/tmp/17.eml"
      = (.error (dirNotCurMsg (pathDir "/home/u/Maildir/tmp/17.eml")
          (pathBase "/home/u/Maildir/tmp/17.eml")
          (pathDir (pathDir "/home/u/Maildir/tmp/17.eml"))
          (pathBase (pathDir "/home/u/Maildir/tmp/17.eml"))), []) :=
  ⟨by decide, by decide, by decide,
   (generateOutputPath_spec.1 ["home", "u", "Maildir"] "17.eml"
     (by decide) (by decide) (by decide)).1,
   by decide,
   generateOutputPath_spec.2 "/home/u/Maildir/tmp/17.eml" (by decide)⟩

end Filterctld